import Mathlib

/-!
Verification of the JavaScript-literal decoding and embedded-value extraction
engine of `duckdb_html_query` (`src/js_decode.rs`, `src/lib.rs`).

Strings are modelled as `List Char`.  The Rust code mixes byte-level and
char-level scanning, but every character it dispatches on (braces, brackets,
quotes, backslash, semicolon, newline) is a single-byte ASCII character that
never occurs inside a multi-byte UTF-8 sequence, so the char-level model agrees
with the byte-level code on all valid UTF-8 inputs.

The external `serde_json` library is not part of this repository; functions
that call `serde_json::from_str` are parameterized by an abstract
`parse : List Char → Option J` (and the RSC extractor additionally by the
key-membership test `J.get(key).is_some()`).
-/

namespace JsDecode

/-- Rust `char::is_whitespace`: the Unicode White_Space property. -/
def isRustWhitespace (c : Char) : Bool :=
  c.toNat ∈ [0x09, 0x0A, 0x0B, 0x0C, 0x0D, 0x20, 0x85, 0xA0, 0x1680,
    0x2000, 0x2001, 0x2002, 0x2003, 0x2004, 0x2005, 0x2006, 0x2007,
    0x2008, 0x2009, 0x200A, 0x2028, 0x2029, 0x202F, 0x205F, 0x3000]

/-- Rust `str::trim_start`. -/
def trimStartL (s : List Char) : List Char := s.dropWhile isRustWhitespace

/-- Rust `str::trim_end`. -/
def trimEndL (s : List Char) : List Char :=
  (s.reverse.dropWhile isRustWhitespace).reverse

/-- Rust `str::trim`. -/
def trimL (s : List Char) : List Char := trimEndL (trimStartL s)

/-- Rust `str::find(pattern)`: index of the first occurrence of `pat` as a
contiguous sublist of `text` (`none` if absent). -/
def findSub (text pat : List Char) : Option Nat :=
  if pat.isPrefixOf text then some 0
  else
    match text with
    | [] => none
    | _ :: t => (findSub t pat).map (· + 1)

/-- Rust `str::contains(pattern)`. -/
def containsSub (text pat : List Char) : Bool := (findSub text pat).isSome

/-- Rust `str::strip_prefix`. -/
def stripPrefixL (pat text : List Char) : Option (List Char) :=
  if pat.isPrefixOf text then some (text.drop pat.length) else none

/-- Rust `str::replace(pat, rep)` (all non-overlapping occurrences, left to
right).  The callers in this repository only use a non-empty `pat`; an empty
`pat` returns the text unchanged here. -/
def replaceSub (text : List Char) (pat rep : List Char) : List Char :=
  match h : pat with
  | [] => text
  | _ :: _ =>
    if hp : pat.isPrefixOf text then
      rep ++ replaceSub (text.drop pat.length) pat rep
    else
      match text with
      | [] => []
      | c :: t => c :: replaceSub t pat rep
termination_by text.length
decreasing_by
  · have hl : pat.length ≤ text.length := (List.isPrefixOf_iff_prefix.mp hp).length_le
    have : 1 ≤ pat.length := by simp [h]
    simp only [List.length_drop]
    omega
  · simp

/-- Hexadecimal digit test, as accepted by Rust `char::to_digit(16)`. -/
def isHexDigit (c : Char) : Bool :=
  ('0' ≤ c ∧ c ≤ '9') ∨ ('a' ≤ c ∧ c ≤ 'f') ∨ ('A' ≤ c ∧ c ≤ 'F')

/-- Value of a hexadecimal digit. -/
def hexVal (c : Char) : Nat :=
  if '0' ≤ c ∧ c ≤ '9' then c.toNat - '0'.toNat
  else if 'a' ≤ c ∧ c ≤ 'f' then c.toNat - 'a'.toNat + 10
  else c.toNat - 'A'.toNat + 10

/-- Digit run of Rust `uN::from_str_radix(s, 16)`: all characters must be hex
digits and there must be at least one. -/
def hexDigitsVal (ds : List Char) : Option Nat :=
  if ds.isEmpty then none
  else if ds.all isHexDigit then some (ds.foldl (fun a c => 16 * a + hexVal c) 0) else none

/-- Rust `uN::from_str_radix(s, 16)` for an unsigned integer type wide enough
that no overflow can occur (the decoder passes at most 4 digits): an optional
sign followed by hex digits; a `-` sign is only accepted for value zero. -/
def fromStrRadix16 (s : List Char) : Option Nat :=
  match s with
  | '+' :: ds => hexDigitsVal ds
  | '-' :: ds => (hexDigitsVal ds).bind (fun n => if n = 0 then some 0 else none)
  | ds => hexDigitsVal ds

/-- Rust `char::from_u32`: `some` exactly on valid Unicode scalar values. -/
def charFromNat (n : Nat) : Option Char :=
  if h : n.isValidChar then some (Char.ofNat n) else none

/-- Errors of `decode_js_string` (the Rust code returns boxed error strings;
only the construction site matters here). -/
inductive DecodeErr where
  /-- "Invalid hex escape". -/
  | invalidHex (hex : List Char) : DecodeErr
  /-- "Incomplete hex escape". -/
  | incompleteHex (hex : List Char) : DecodeErr
  /-- "Invalid unicode escape". -/
  | invalidUnicode (hex : List Char) : DecodeErr
  /-- "Invalid unicode code point". -/
  | invalidCodePoint (hex : List Char) : DecodeErr
  /-- "Incomplete unicode escape". -/
  | incompleteUnicode (hex : List Char) : DecodeErr
deriving DecidableEq, Repr

/-- Error taxonomy of the embedded-value extraction functions. -/
inductive JsErr where
  /-- "Variable pattern not found" in `extract_js_variable`. -/
  | varNotFound : JsErr
  /-- "Expected JSON.parse(" in `extract_json_parse`. -/
  | expectedJsonParse : JsErr
  /-- "Expected quote after JSON.parse(" in `extract_json_parse`. -/
  | expectedQuote : JsErr
  /-- "Expected ' or \" after JSON.parse(, got c" in `extract_json_parse`. -/
  | unsupportedQuote (c : Char) : JsErr
  /-- A `decode_js_string` error propagated by `extract_json_parse`. -/
  | decodeErr (e : DecodeErr) : JsErr
deriving DecidableEq, Repr

/-- `decode_js_string` (`src/js_decode.rs` lines 210-340): decode a JavaScript
string-literal body, handling `\xNN`, `\uNNNN`, double-escaped `\\uNNNN`,
standard single-character escapes, lenient `\-`/`\/`, unknown escapes passed
through, and a trailing lone backslash. -/
def decode_js_string (s : List Char) : Except DecodeErr (List Char) :=
  match s with
  | [] => .ok []
  | '\\' :: rest =>
    match rest with
    | [] => .ok ['\\']
    | 'x' :: r2 =>
      let hex := r2.take 2
      if hex.length = 2 then
        match fromStrRadix16 hex with
        | some n => (decode_js_string (r2.drop 2)).map (fun t => Char.ofNat n :: t)
        | none => .error (.invalidHex hex)
      else .error (.incompleteHex hex)
    | 'u' :: r2 =>
      let hex := r2.take 4
      if hex.length = 4 then
        match fromStrRadix16 hex with
        | some n =>
          match charFromNat n with
          | some u => (decode_js_string (r2.drop 4)).map (fun t => u :: t)
          | none => .error (.invalidCodePoint hex)
        | none => .error (.invalidUnicode hex)
      else .error (.incompleteUnicode hex)
    | '\\' :: r2 =>
      match r2 with
      | 'u' :: r3 =>
        let hex := r3.take 4
        if hex.length = 4 then
          match fromStrRadix16 hex with
          | some n =>
            match charFromNat n with
            | some u => (decode_js_string (r3.drop 4)).map (fun t => u :: t)
            | none => .error (.invalidCodePoint hex)
          | none => .error (.invalidUnicode hex)
        else .error (.incompleteUnicode hex)
      | r4 => (decode_js_string r4).map (fun t => '\\' :: t)
    | 'n' :: r2 => (decode_js_string r2).map (fun t => '\n' :: t)
    | 'r' :: r2 => (decode_js_string r2).map (fun t => '\r' :: t)
    | 't' :: r2 => (decode_js_string r2).map (fun t => '\t' :: t)
    | '"' :: r2 => (decode_js_string r2).map (fun t => '"' :: t)
    | '\'' :: r2 => (decode_js_string r2).map (fun t => '\'' :: t)
    | 'b' :: r2 => (decode_js_string r2).map (fun t => '\x08' :: t)
    | 'f' :: r2 => (decode_js_string r2).map (fun t => '\x0C' :: t)
    | 'v' :: r2 => (decode_js_string r2).map (fun t => '\x0B' :: t)
    | '0' :: r2 => (decode_js_string r2).map (fun t => '\x00' :: t)
    | '-' :: r2 => (decode_js_string r2).map (fun t => '-' :: t)
    | '/' :: r2 => (decode_js_string r2).map (fun t => '/' :: t)
    | c :: r2 => (decode_js_string r2).map (fun t => c :: t)
  | c :: rest => (decode_js_string rest).map (fun t => c :: t)
termination_by s.length
decreasing_by all_goals (simp only [List.length_drop, List.length_cons]; omega)

/-- Rust `char::is_control`: the Unicode Cc category. -/
def isRustControl (c : Char) : Bool :=
  c.toNat < 0x20 ∨ (0x7F ≤ c.toNat ∧ c.toNat ≤ 0x9F)

/-- Replacement emitted by `escape_json_control_chars` for a control character
found inside a string span (`src/lib.rs` lines 306-310). -/
def ctrlRepl (c : Char) : List Char :=
  if c = '\n' then ['\\', 'n']
  else if c = '\r' then ['\\', 'r']
  else if c = '\t' then ['\\', 't']
  else []

/-- Scanning loop of `escape_json_control_chars` (`src/lib.rs` lines 280-318),
with the mutable `in_string` / `escape_next` flags as parameters. -/
def escapeCtrlGo (instr esc : Bool) : List Char → List Char
  | [] => []
  | c :: cs =>
    if esc then c :: escapeCtrlGo instr false cs
    else if c = '\\' then c :: escapeCtrlGo instr true cs
    else if c = '"' then c :: escapeCtrlGo (!instr) false cs
    else if instr ∧ isRustControl c then ctrlRepl c ++ escapeCtrlGo instr false cs
    else c :: escapeCtrlGo instr false cs

/-- `escape_json_control_chars` (`src/lib.rs` lines 280-318): escape raw
control characters inside JSON string spans. -/
def escape_json_control_chars (s : List Char) : List Char := escapeCtrlGo false false s

/-- Re-scanning the output of `escapeCtrlGo` from the same starting state
reproduces it unchanged. -/
theorem escapeCtrlGo_idem (cs : List Char) :
    ∀ instr esc, escapeCtrlGo instr esc (escapeCtrlGo instr esc cs) = escapeCtrlGo instr esc cs := by
  induction cs with
  | nil => intro instr esc; simp [escapeCtrlGo]
  | cons c cs ih =>
    intro instr esc
    cases esc with
    | true => simp [escapeCtrlGo, ih]
    | false =>
      by_cases hb : c = '\\'
      · subst hb; simp [escapeCtrlGo, ih]
      · by_cases hq : c = '"'
        · subst hq; simp [escapeCtrlGo, ih]
        · by_cases hc : instr = true ∧ isRustControl c = true
          · obtain ⟨hi, hctl⟩ := hc
            subst hi
            by_cases hn : c = '\n'
            · subst hn; simp [escapeCtrlGo, ctrlRepl, hctl, ih]
            · by_cases hr : c = '\r'
              · subst hr; simp [escapeCtrlGo, ctrlRepl, hctl, ih]
              · by_cases ht : c = '\t'
                · subst ht; simp [escapeCtrlGo, ctrlRepl, hctl, ih]
                · simp [escapeCtrlGo, ctrlRepl, hb, hq, hn, hr, ht, hctl, ih]
          · simp [escapeCtrlGo, hb, hq, hc, ih]

/-- Claim C7: the JSON repair function `escape_json_control_chars` is
idempotent: applying it to its own output yields that output unchanged. -/
theorem C7_escape_json_control_chars_idempotent (s : List Char) :
    escape_json_control_chars (escape_json_control_chars s) = escape_json_control_chars s :=
  escapeCtrlGo_idem s false false

/-- `decode_js_string` is the identity on backslash-free input. -/
theorem decode_id_of_no_backslash (s : List Char) (h : '\\' ∉ s) :
    decode_js_string s = .ok s := by
  induction s with
  | nil => simp [decode_js_string]
  | cons c rest ih =>
    have hc : c ≠ '\\' := fun e => h (e ▸ List.mem_cons_self c rest)
    have hrest : '\\' ∉ rest := fun e => h (List.mem_cons_of_mem c e)
    rw [decode_js_string.eq_def]
    split
    · rename_i heq; exact absurd heq (by simp)
    · rename_i rest1 heq
      injection heq with h1 h2
      exact absurd h1 hc
    · rename_i c' rest' heq
      injection heq with h1 h2
      subst h1; subst h2
      rw [ih hrest]
      rfl

/-- Claim C8: for every string containing no backslash character,
`decode_js_string` succeeds and returns it unchanged. -/
theorem C8_decode_identity_no_backslash (s : List Char) (h : '\\' ∉ s) :
    decode_js_string s = .ok s :=
  decode_id_of_no_backslash s h

end JsDecode

namespace JsDecode

/-- Four hex digits evaluate under `fromStrRadix16` to their big-endian value. -/
theorem fromStrRadix16_four (h₁ h₂ h₃ h₄ : Char)
    (d₁ : isHexDigit h₁ = true) (d₂ : isHexDigit h₂ = true)
    (d₃ : isHexDigit h₃ = true) (d₄ : isHexDigit h₄ = true) :
    fromStrRadix16 [h₁, h₂, h₃, h₄] =
      some (16 * (16 * (16 * hexVal h₁ + hexVal h₂) + hexVal h₃) + hexVal h₄) := by
  have hp : h₁ ≠ '+' := by intro e; rw [e] at d₁; exact absurd d₁ (by decide)
  have hm : h₁ ≠ '-' := by intro e; rw [e] at d₁; exact absurd d₁ (by decide)
  rw [fromStrRadix16.eq_def]
  split
  · rename_i heq; injection heq with e _; exact absurd e hp
  · rename_i heq; injection heq with e _; exact absurd e hm
  · simp [hexDigitsVal, d₁, d₂, d₃, d₄, List.foldl]

end JsDecode

namespace JsDecode

/-- Claim C5: a double-escaped `\\uHHHH` (four hex digits, valid scalar value)
decodes to the same single character as the singly-escaped `\uHHHH` form, and
two consecutive backslashes not followed by `u` emit exactly one backslash
(including at end of input). -/
theorem C5_decode_double_escape_behavior :
    (∀ (h₁ h₂ h₃ h₄ : Char) (rest : List Char),
      isHexDigit h₁ = true → isHexDigit h₂ = true →
      isHexDigit h₃ = true → isHexDigit h₄ = true →
      (16 * (16 * (16 * hexVal h₁ + hexVal h₂) + hexVal h₃) + hexVal h₄).isValidChar →
      decode_js_string ('\\' :: '\\' :: 'u' :: h₁ :: h₂ :: h₃ :: h₄ :: rest) =
        decode_js_string ('\\' :: 'u' :: h₁ :: h₂ :: h₃ :: h₄ :: rest) ∧
      decode_js_string ('\\' :: 'u' :: h₁ :: h₂ :: h₃ :: h₄ :: rest) =
        (decode_js_string rest).map
          (fun t =>
            Char.ofNat (16 * (16 * (16 * hexVal h₁ + hexVal h₂) + hexVal h₃) + hexVal h₄) :: t)) ∧
    (∀ (c : Char) (rest : List Char), c ≠ 'u' →
      decode_js_string ('\\' :: '\\' :: c :: rest) =
        (decode_js_string (c :: rest)).map (fun t => '\\' :: t)) ∧
    decode_js_string ['\\', '\\'] = .ok ['\\'] := by
  refine ⟨?_, ?_, ?_⟩
  · intro h₁ h₂ h₃ h₄ rest d₁ d₂ d₃ d₄ hv
    constructor
    · conv_lhs => rw [decode_js_string.eq_def]
      conv_rhs => rw [decode_js_string.eq_def]
      rfl
    · rw [decode_js_string.eq_def]
      simp only [List.take_succ_cons, List.take_zero, List.drop_succ_cons, List.drop_zero]
      rw [fromStrRadix16_four h₁ h₂ h₃ h₄ d₁ d₂ d₃ d₄]
      simp [charFromNat, hv]
  · intro c rest hc
    simp [decode_js_string, hc]
  · simp [decode_js_string]
    rfl

end JsDecode

namespace JsDecode

/-- Witness for claim C8 at a concrete backslash-free input. -/
theorem C8_decode_identity_no_backslash_witness :
    '\\' ∉ ['a', 'b', 'c'] ∧ decode_js_string ['a', 'b', 'c'] = .ok ['a', 'b', 'c'] :=
  ⟨by decide, C8_decode_identity_no_backslash ['a', 'b', 'c'] (by decide)⟩

/-- Witness for claim C5 at concrete inputs: `\\u0041` decodes like `A`,
and `\;` emits a single backslash. -/
theorem C5_decode_double_escape_behavior_witness :
    (isHexDigit '0' = true ∧ isHexDigit '4' = true ∧ isHexDigit '1' = true ∧
      (16 * (16 * (16 * hexVal '0' + hexVal '0') + hexVal '4') + hexVal '1').isValidChar) ∧
    decode_js_string ['\\', '\\', 'u', '0', '0', '4', '1'] =
      decode_js_string ['\\', 'u', '0', '0', '4', '1'] ∧
    decode_js_string ['\\', '\\', ';'] = (decode_js_string [';']).map (fun t => '\\' :: t) :=
  ⟨⟨by decide, by decide, by decide, by decide⟩,
    (C5_decode_double_escape_behavior.1 '0' '0' '4' '1' []
      (by decide) (by decide) (by decide) (by decide) (by decide)).1,
    C5_decode_double_escape_behavior.2.1 ';' [] (by decide)⟩

end JsDecode

namespace JsDecode

/-- Scanning loop of `extract_balanced_json_with_escaped_strings`
(`src/js_decode.rs` lines 448-487), indexing into `text` like the Rust code
indexes into `bytes`; returns the final index `i` when `depth` reaches 0, and
`none` when the input is exhausted first. -/
def ebGo (text : List Char) (escaped : Bool) (op cl : Char) (i depth : Nat)
    (instr : Bool) : Option Nat :=
  if h : i < text.length ∧ 0 < depth then
    if escaped then
      if i + 1 < text.length ∧ text.getD i ' ' = '\\' ∧ text.getD (i + 1) ' ' = '"' then
        ebGo text escaped op cl (i + 2) depth (!instr)
      else if instr ∧ i + 1 < text.length ∧ text.getD i ' ' = '\\' ∧
          text.getD (i + 1) ' ' = '\\' then
        ebGo text escaped op cl (i + 2) depth instr
      else
        let depth' := if !instr then
            (if text.getD i ' ' = op then depth + 1
             else if text.getD i ' ' = cl then depth - 1 else depth)
          else depth
        ebGo text escaped op cl (i + 1) depth' instr
    else
      if text.getD i ' ' = '"' ∧ (i = 0 ∨ text.getD (i - 1) ' ' ≠ '\\') then
        ebGo text escaped op cl (i + 1) depth (!instr)
      else if instr ∧ text.getD i ' ' = '\\' ∧ i + 1 < text.length then
        ebGo text escaped op cl (i + 2) depth instr
      else
        let depth' := if !instr then
            (if text.getD i ' ' = op then depth + 1
             else if text.getD i ' ' = cl then depth - 1 else depth)
          else depth
        ebGo text escaped op cl (i + 1) depth' instr
  else if depth = 0 then some i else none
termination_by text.length - i
decreasing_by all_goals omega

/-- `extract_balanced_json_with_escaped_strings` (`src/js_decode.rs` lines
437-494): extract a balanced brace/bracket region starting at offset 0, under
the `Literal` (`escaped_strings = false`) or `EscapedQuotes`
(`escaped_strings = true`) quoting mode. -/
def extract_balanced_json_with_escaped_strings (text : List Char)
    (escaped_strings : Bool) : Option (List Char) :=
  match text with
  | [] => none
  | c0 :: _ =>
    if c0 ≠ '{' ∧ c0 ≠ '[' then none
    else
      let op := if c0 = '{' then '{' else '['
      let cl := if c0 = '{' then '}' else ']'
      (ebGo text escaped_strings op cl 1 1 false).map (fun i => text.take i)

/-- Reference scanner written from the spec's words (§4.5): scan `rest`
character by character carrying the previous character, the depth counter and
the in-string flag; characters satisfying `isOp` increment and characters
satisfying `isCl` decrement the counter outside of string state; in `Literal`
mode an unescaped `"` toggles string state and `\X` is skipped as a unit
inside strings; in `EscapedQuotes` mode `\"` toggles string state and `\\` is
skipped as a unit inside strings.  Returns how many characters were consumed
when the counter reached zero. -/
def genGo (escaped : Bool) (isOp isCl : Char → Bool) (prev : Char)
    (rest : List Char) (depth : Nat) (instr : Bool) : Option Nat :=
  match depth, rest with
  | 0, _ => some 0
  | _ + 1, [] => none
  | d + 1, c :: cs =>
    if escaped then
      if c = '\\' ∧ cs.head? = some '"' then
        (genGo escaped isOp isCl '"' cs.tail (d + 1) (!instr)).map (· + 2)
      else if c = '\\' ∧ instr = true ∧ cs.head? = some '\\' then
        (genGo escaped isOp isCl '\\' cs.tail (d + 1) instr).map (· + 2)
      else
        let depth' := if !instr then
            (if isOp c then d + 2 else if isCl c then d else d + 1)
          else d + 1
        (genGo escaped isOp isCl c cs depth' instr).map (· + 1)
    else
      if c = '"' ∧ prev ≠ '\\' then
        (genGo escaped isOp isCl c cs (d + 1) (!instr)).map (· + 1)
      else if c = '\\' ∧ instr = true ∧ cs ≠ [] then
        (genGo escaped isOp isCl (cs.headD ' ') cs.tail (d + 1) instr).map (· + 2)
      else
        let depth' := if !instr then
            (if isOp c then d + 2 else if isCl c then d else d + 1)
          else d + 1
        (genGo escaped isOp isCl c cs depth' instr).map (· + 1)
termination_by rest.length
decreasing_by all_goals (simp [List.length_tail]; try omega)

/-- Spec-side balanced-region scanner over a choice of counted bracket
characters: first character must open a region, the scan starts after it with
the counter at 1, and the result is the prefix up to where the counter
returns to zero. -/
def specBalancedGen (escaped : Bool) (isOp isCl : Char → Bool)
    (text : List Char) : Option (List Char) :=
  match text with
  | [] => none
  | c0 :: cs =>
    if c0 ≠ '{' ∧ c0 ≠ '[' then none
    else (genGo escaped isOp isCl c0 cs 1 false).map (fun k => text.take (1 + k))

/-- Claim C1's scanner as literally stated: every `{` and `[` increments and
every `}` and `]` decrements the single depth counter. -/
def claimBothKindsBalanced (text : List Char) (escaped : Bool) : Option (List Char) :=
  specBalancedGen escaped (fun c => c = '{' ∨ c = '[') (fun c => c = '}' ∨ c = ']') text

/-- Amended scanner: only the bracket kind selected by the first character is
counted; the other kind is ignored entirely. -/
def openerKindBalanced (text : List Char) (escaped : Bool) : Option (List Char) :=
  if text.head? = some '{' then specBalancedGen escaped (· = '{') (· = '}') text
  else specBalancedGen escaped (· = '[') (· = ']') text

end JsDecode

namespace JsDecode

/-- Dropping at an in-bounds index exposes the element given by `getD`. -/
theorem dropGetD (l : List Char) (i : Nat) (h : i < l.length) :
    l.drop i = l.getD i ' ' :: l.drop (i + 1) := by
  rw [List.drop_eq_getElem_cons h]
  congr 1
  simp [List.getD_eq_getElem?_getD, List.getElem?_eq_getElem h]

/-- `genGo` at depth zero stops immediately. -/
theorem genGo_depth_zero (escaped : Bool) (isOp isCl : Char → Bool) (prev : Char)
    (rest : List Char) (instr : Bool) :
    genGo escaped isOp isCl prev rest 0 instr = some 0 := by
  rw [genGo.eq_def]

/-- `genGo` on exhausted input with positive depth fails. -/
theorem genGo_succ_nil (escaped : Bool) (isOp isCl : Char → Bool) (prev : Char)
    (d : Nat) (instr : Bool) :
    genGo escaped isOp isCl prev [] (d + 1) instr = none := by
  rw [genGo.eq_def]

end JsDecode



namespace JsDecode

/-- A `some` head of a dropped suffix pins down the index and element. -/
theorem head?_drop_some {l : List Char} {j : Nat} {x : Char}
    (h : (l.drop j).head? = some x) : j < l.length ∧ l.getD j ' ' = x := by
  by_cases hj : j < l.length
  · rw [dropGetD l j hj] at h
    exact ⟨hj, by injection h⟩
  · rw [List.drop_eq_nil_of_le (by omega)] at h
    exact absurd h (by simp)

/-- A nonempty dropped suffix means the index is in bounds. -/
theorem drop_ne_nil_lt {l : List Char} {j : Nat} (h : l.drop j ≠ []) :
    j < l.length := by
  by_contra hj
  exact h (List.drop_eq_nil_of_le (by omega))

/-- One unfolding of `genGo` on a cons cell. -/
theorem genGo_cons (escaped : Bool) (isOp isCl : Char → Bool) (prev c : Char)
    (cs : List Char) (d : Nat) (instr : Bool) :
    genGo escaped isOp isCl prev (c :: cs) (d + 1) instr =
      if escaped then
        if c = '\\' ∧ cs.head? = some '"' then
          (genGo escaped isOp isCl '"' cs.tail (d + 1) (!instr)).map (· + 2)
        else if c = '\\' ∧ instr = true ∧ cs.head? = some '\\' then
          (genGo escaped isOp isCl '\\' cs.tail (d + 1) instr).map (· + 2)
        else
          (genGo escaped isOp isCl c cs
            (if !instr then (if isOp c then d + 2 else if isCl c then d else d + 1) else d + 1)
            instr).map (· + 1)
      else
        if c = '"' ∧ prev ≠ '\\' then
          (genGo escaped isOp isCl c cs (d + 1) (!instr)).map (· + 1)
        else if c = '\\' ∧ instr = true ∧ cs ≠ [] then
          (genGo escaped isOp isCl (cs.headD ' ') cs.tail (d + 1) instr).map (· + 2)
        else
          (genGo escaped isOp isCl c cs
            (if !instr then (if isOp c then d + 2 else if isCl c then d else d + 1) else d + 1)
            instr).map (· + 1) := by
  rw [genGo.eq_def]

/-- Out-of-bounds base case of the `ebGo`/`genGo` correspondence. -/
theorem ebGo_eq_genGo_out (text : List Char) (esc : Bool) (op cl : Char)
    (i depth : Nat) (instr : Bool) (hge : text.length ≤ i) :
    ebGo text esc op cl i depth instr =
      (genGo esc (fun ch => ch = op) (fun ch => ch = cl) (text.getD (i - 1) ' ')
        (text.drop i) depth instr).map (fun k => i + k) := by
  rw [ebGo.eq_def]
  rw [dif_neg (by omega : ¬(i < text.length ∧ 0 < depth))]
  rw [List.drop_eq_nil_of_le hge]
  cases depth with
  | zero => rw [genGo_depth_zero]; simp
  | succ d => rw [genGo_succ_nil]; simp

/-- The index-based scanning loop of the source
(`extract_balanced_json_with_escaped_strings`) agrees with the spec-side
list scanner `genGo`, carrying the previous character and the yet-unscanned
suffix. -/
theorem ebGo_eq_genGo (text : List Char) (esc : Bool) (op cl : Char) :
    ∀ (m i depth : Nat) (instr : Bool), text.length - i ≤ m → 1 ≤ i →
      ebGo text esc op cl i depth instr =
        (genGo esc (fun ch => ch = op) (fun ch => ch = cl) (text.getD (i - 1) ' ')
          (text.drop i) depth instr).map (fun k => i + k) := by
  intro m
  induction m with
  | zero =>
    intro i depth instr hm hi
    exact ebGo_eq_genGo_out text esc op cl i depth instr (by omega)
  | succ m ih =>
    intro i depth instr hm hi
    by_cases hlt : i < text.length
    case neg => exact ebGo_eq_genGo_out text esc op cl i depth instr (by omega)
    case pos =>
      cases depth with
      | zero =>
        rw [ebGo.eq_def, dif_neg (by omega : ¬(i < text.length ∧ 0 < 0)), if_pos rfl,
          genGo_depth_zero]
        simp
      | succ d =>
        have hdi : text.drop i = text.getD i ' ' :: text.drop (i + 1) := dropGetD text i hlt
        rw [ebGo.eq_def, dif_pos (⟨hlt, Nat.succ_pos d⟩ : i < text.length ∧ 0 < d + 1)]
        cases esc with
        | true =>
          rw [if_pos rfl]
          by_cases h1 : i + 1 < text.length ∧ text.getD i ' ' = '\\' ∧
              text.getD (i + 1) ' ' = '"'
          · rw [if_pos h1]
            obtain ⟨hl1, hbi, hq1⟩ := h1
            have hd1 : text.drop (i + 1) = '"' :: text.drop (i + 2) := by
              have := dropGetD text (i + 1) hl1
              rw [hq1] at this
              exact this
            have hg : genGo true (fun ch => ch = op) (fun ch => ch = cl)
                (text.getD (i - 1) ' ') (text.drop i) (d + 1) instr =
                (genGo true (fun ch => ch = op) (fun ch => ch = cl) '"'
                  (text.drop (i + 2)) (d + 1) (!instr)).map (· + 2) := by
              rw [hdi, hbi, hd1, genGo_cons]
              simp
            rw [hg]
            have hIH := ih (i + 2) (d + 1) (!instr) (by omega) (by omega)
            rw [show i + 2 - 1 = i + 1 from rfl, hq1] at hIH
            rw [hIH]
            cases genGo true (fun ch => ch = op) (fun ch => ch = cl) '"'
                (text.drop (i + 2)) (d + 1) (!instr) with
            | none => simp
            | some k => simp; omega
          · rw [if_neg h1]
            by_cases h2 : instr = true ∧ i + 1 < text.length ∧ text.getD i ' ' = '\\' ∧
                text.getD (i + 1) ' ' = '\\'
            · rw [if_pos h2]
              obtain ⟨hins, hl1, hbi, hb1⟩ := h2
              have hd1 : text.drop (i + 1) = '\\' :: text.drop (i + 2) := by
                have := dropGetD text (i + 1) hl1
                rw [hb1] at this
                exact this
              have hg : genGo true (fun ch => ch = op) (fun ch => ch = cl)
                  (text.getD (i - 1) ' ') (text.drop i) (d + 1) instr =
                  (genGo true (fun ch => ch = op) (fun ch => ch = cl) '\\'
                    (text.drop (i + 2)) (d + 1) instr).map (· + 2) := by
                rw [hdi, hbi, hd1, genGo_cons]
                simp [hins]
              rw [hg]
              have hIH := ih (i + 2) (d + 1) instr (by omega) (by omega)
              rw [show i + 2 - 1 = i + 1 from rfl, hb1] at hIH
              rw [hIH]
              cases genGo true (fun ch => ch = op) (fun ch => ch = cl) '\\'
                  (text.drop (i + 2)) (d + 1) instr with
              | none => simp
              | some k => simp; omega
            · rw [if_neg h2]
              have hA : ¬(text.getD i ' ' = '\\' ∧
                  (text.drop (i + 1)).head? = some '"') := by
                rintro ⟨hbi, hh⟩
                obtain ⟨hl1, hq1⟩ := head?_drop_some hh
                exact h1 ⟨by omega, hbi, hq1⟩
              have hB : ¬(text.getD i ' ' = '\\' ∧ instr = true ∧
                  (text.drop (i + 1)).head? = some '\\') := by
                rintro ⟨hbi, hins, hh⟩
                obtain ⟨hl1, hb1⟩ := head?_drop_some hh
                exact h2 ⟨hins, by omega, hbi, hb1⟩
              have hg : genGo true (fun ch => ch = op) (fun ch => ch = cl)
                  (text.getD (i - 1) ' ') (text.drop i) (d + 1) instr =
                  (genGo true (fun ch => ch = op) (fun ch => ch = cl)
                    (text.getD i ' ') (text.drop (i + 1))
                    (if !instr then
                      (if text.getD i ' ' = op then d + 2
                       else if text.getD i ' ' = cl then d else d + 1)
                     else d + 1) instr).map (· + 1) := by
                rw [hdi, genGo_cons]
                rw [if_pos rfl, if_neg hA, if_neg hB]
                simp only [decide_eq_true_eq]
              rw [hg]
              have hdep : (if !instr then
                    (if text.getD i ' ' = op then d + 1 + 1
                     else if text.getD i ' ' = cl then d + 1 - 1 else d + 1)
                  else d + 1) =
                  (if !instr then
                    (if text.getD i ' ' = op then d + 2
                     else if text.getD i ' ' = cl then d else d + 1)
                  else d + 1) := by
                by_cases hins : !instr
                · rw [if_pos hins, if_pos hins]
                  by_cases hop : text.getD i ' ' = op
                  · simp [hop]
                  · by_cases hcl : text.getD i ' ' = cl
                    · simp [hop, hcl]
                    · simp [hop, hcl]
                · rw [if_neg hins, if_neg hins]
              simp only []
              rw [hdep]
              have hIH := ih (i + 1)
                (if !instr then
                  (if text.getD i ' ' = op then d + 2
                   else if text.getD i ' ' = cl then d else d + 1)
                 else d + 1) instr (by omega) (by omega)
              rw [show i + 1 - 1 = i from rfl] at hIH
              rw [hIH]
              cases genGo true (fun ch => ch = op) (fun ch => ch = cl)
                  (text.getD i ' ') (text.drop (i + 1))
                  (if !instr then
                    (if text.getD i ' ' = op then d + 2
                     else if text.getD i ' ' = cl then d else d + 1)
                   else d + 1) instr with
              | none => simp
              | some k => simp; omega
        | false =>
          rw [if_neg (by decide : ¬false = true)]
          by_cases h1 : text.getD i ' ' = '"' ∧ (i = 0 ∨ text.getD (i - 1) ' ' ≠ '\\')
          · rw [if_pos h1]
            have hprev : text.getD (i - 1) ' ' ≠ '\\' := by
              rcases h1.2 with h0 | hp
              · omega
              · exact hp
            have hg : genGo false (fun ch => ch = op) (fun ch => ch = cl)
                (text.getD (i - 1) ' ') (text.drop i) (d + 1) instr =
                (genGo false (fun ch => ch = op) (fun ch => ch = cl)
                  (text.getD i ' ') (text.drop (i + 1)) (d + 1) (!instr)).map (· + 1) := by
              rw [hdi, genGo_cons]
              rw [if_neg (by decide : ¬false = true), if_pos ⟨h1.1, hprev⟩]
            rw [hg]
            have hIH := ih (i + 1) (d + 1) (!instr) (by omega) (by omega)
            rw [show i + 1 - 1 = i from rfl] at hIH
            rw [hIH]
            cases genGo false (fun ch => ch = op) (fun ch => ch = cl)
                (text.getD i ' ') (text.drop (i + 1)) (d + 1) (!instr) with
            | none => simp
            | some k => simp; omega
          · rw [if_neg h1]
            by_cases h2 : instr = true ∧ text.getD i ' ' = '\\' ∧ i + 1 < text.length
            · rw [if_pos h2]
              obtain ⟨hins, hbi, hl1⟩ := h2
              have hd1 : text.drop (i + 1) =
                  text.getD (i + 1) ' ' :: text.drop (i + 2) := dropGetD text (i + 1) hl1
              have hg : genGo false (fun ch => ch = op) (fun ch => ch = cl)
                  (text.getD (i - 1) ' ') (text.drop i) (d + 1) instr =
                  (genGo false (fun ch => ch = op) (fun ch => ch = cl)
                    (text.getD (i + 1) ' ') (text.drop (i + 2)) (d + 1) instr).map
                    (· + 2) := by
                rw [hdi, genGo_cons]
                rw [if_neg (by decide : ¬false = true)]
                rw [if_neg (by rintro ⟨hq, _⟩; rw [hbi] at hq; exact absurd hq (by decide))]
                rw [if_pos ⟨hbi, hins, by rw [hd1]; simp⟩]
                rw [hd1]
                simp
              rw [hg]
              have hIH := ih (i + 2) (d + 1) instr (by omega) (by omega)
              rw [show i + 2 - 1 = i + 1 from rfl] at hIH
              rw [hIH]
              cases genGo false (fun ch => ch = op) (fun ch => ch = cl)
                  (text.getD (i + 1) ' ') (text.drop (i + 2)) (d + 1) instr with
              | none => simp
              | some k => simp; omega
            · rw [if_neg h2]
              have hA : ¬(text.getD i ' ' = '"' ∧ text.getD (i - 1) ' ' ≠ '\\') := by
                rintro ⟨hq, hp⟩
                exact h1 ⟨hq, Or.inr hp⟩
              have hB : ¬(text.getD i ' ' = '\\' ∧ instr = true ∧
                  text.drop (i + 1) ≠ []) := by
                rintro ⟨hbi, hins, hne⟩
                exact h2 ⟨hins, hbi, drop_ne_nil_lt hne⟩
              have hg : genGo false (fun ch => ch = op) (fun ch => ch = cl)
                  (text.getD (i - 1) ' ') (text.drop i) (d + 1) instr =
                  (genGo false (fun ch => ch = op) (fun ch => ch = cl)
                    (text.getD i ' ') (text.drop (i + 1))
                    (if !instr then
                      (if text.getD i ' ' = op then d + 2
                       else if text.getD i ' ' = cl then d else d + 1)
                     else d + 1) instr).map (· + 1) := by
                rw [hdi, genGo_cons]
                rw [if_neg (by decide : ¬false = true), if_neg hA, if_neg hB]
                simp only [decide_eq_true_eq]
              rw [hg]
              have hdep : (if !instr then
                    (if text.getD i ' ' = op then d + 1 + 1
                     else if text.getD i ' ' = cl then d + 1 - 1 else d + 1)
                  else d + 1) =
                  (if !instr then
                    (if text.getD i ' ' = op then d + 2
                     else if text.getD i ' ' = cl then d else d + 1)
                  else d + 1) := by
                by_cases hins : !instr
                · rw [if_pos hins, if_pos hins]
                  by_cases hop : text.getD i ' ' = op
                  · simp [hop]
                  · by_cases hcl : text.getD i ' ' = cl
                    · simp [hop, hcl]
                    · simp [hop, hcl]
                · rw [if_neg hins, if_neg hins]
              simp only []
              rw [hdep]
              have hIH := ih (i + 1)
                (if !instr then
                  (if text.getD i ' ' = op then d + 2
                   else if text.getD i ' ' = cl then d else d + 1)
                 else d + 1) instr (by omega) (by omega)
              rw [show i + 1 - 1 = i from rfl] at hIH
              rw [hIH]
              cases genGo false (fun ch => ch = op) (fun ch => ch = cl)
                  (text.getD i ' ') (text.drop (i + 1))
                  (if !instr then
                    (if text.getD i ' ' = op then d + 2
                     else if text.getD i ' ' = cl then d else d + 1)
                   else d + 1) instr with
              | none => simp
              | some k => simp; omega

end JsDecode

namespace JsDecode

/-- The last element of an in-bounds `take` is the element before the cut. -/
theorem getLast?_take_getD (l : List Char) (k : Nat) (h1 : 1 ≤ k) (h2 : k ≤ l.length) :
    (l.take k).getLast? = some (l.getD (k - 1) ' ') := by
  rw [List.getLast?_eq_getElem?]
  have hlen : (l.take k).length = k := by simp; omega
  rw [hlen, List.getElem?_take_of_lt (by omega : k - 1 < k),
    List.getElem?_eq_getElem (by omega : k - 1 < l.length)]
  simp [List.getD_eq_getElem?_getD, List.getElem?_eq_getElem (show k - 1 < l.length by omega)]

/-- `genGo` on a cons cell with positive depth always consumes at least one
character before stopping. -/
theorem genGo_cons_ne_some_zero (escaped : Bool) (isOp isCl : Char → Bool)
    (prev c : Char) (cs : List Char) (d : Nat) (instr : Bool) :
    genGo escaped isOp isCl prev (c :: cs) (d + 1) instr ≠ some 0 := by
  rw [genGo_cons]
  split <;> (try split) <;> (try split) <;> simp [Option.map_eq_some']

/-- When `genGo` succeeds from positive depth, at least one character was
consumed, the count is in bounds, and the last consumed character is a
closing character. -/
theorem genGo_some_last (escaped : Bool) (isOp isCl : Char → Bool) :
    ∀ (n : Nat) (rest : List Char) (prev : Char) (d : Nat) (instr : Bool) (k : Nat),
      rest.length ≤ n →
      genGo escaped isOp isCl prev rest (d + 1) instr = some k →
      1 ≤ k ∧ k ≤ rest.length ∧ isCl (rest.getD (k - 1) ' ') = true := by
  intro n
  induction n with
  | zero =>
    intro rest prev d instr k hn hk
    have hre : rest = [] := List.eq_nil_of_length_eq_zero (by omega)
    subst hre
    rw [genGo_succ_nil] at hk
    exact absurd hk (by simp)
  | succ n ihn =>
    intro rest prev d instr k hn hk
    cases rest with
    | nil =>
      rw [genGo_succ_nil] at hk
      exact absurd hk (by simp)
    | cons c cs =>
      rw [genGo_cons] at hk
      have skip2 : ∀ (pv : Char) (ins2 : Bool),
          (genGo escaped isOp isCl pv cs.tail (d + 1) ins2).map (· + 2) = some k →
          cs ≠ [] →
          1 ≤ k ∧ k ≤ (c :: cs).length ∧ isCl ((c :: cs).getD (k - 1) ' ') = true := by
        intro pv ins2 hk2 hne
        cases hgv : genGo escaped isOp isCl pv cs.tail (d + 1) ins2 with
        | none => rw [hgv] at hk2; exact absurd hk2 (by simp)
        | some k2 =>
          rw [hgv] at hk2
          simp at hk2
          subst hk2
          obtain ⟨ha, hb, hc⟩ := ihn cs.tail pv d ins2 k2
            (by simp only [List.length_tail]; simp at hn; omega) hgv
          obtain ⟨x, t, hcs⟩ : ∃ x t, cs = x :: t := by
            cases cs with
            | nil => exact absurd rfl hne
            | cons x xs => exact ⟨x, xs, rfl⟩
          subst hcs
          obtain ⟨k3, rfl⟩ : ∃ k3, k2 = k3 + 1 := ⟨k2 - 1, by omega⟩
          refine ⟨by omega, by simp at hb ⊢; omega, ?_⟩
          simpa using hc
      have consume1 : ∀ (dp : Nat) (ins2 : Bool),
          (genGo escaped isOp isCl c cs dp ins2).map (· + 1) = some k →
          (dp = 0 → isCl c = true) →
          1 ≤ k ∧ k ≤ (c :: cs).length ∧ isCl ((c :: cs).getD (k - 1) ' ') = true := by
        intro dp ins2 hk1 hdp0
        cases hgv : genGo escaped isOp isCl c cs dp ins2 with
        | none => rw [hgv] at hk1; exact absurd hk1 (by simp)
        | some k2 =>
          rw [hgv] at hk1
          simp at hk1
          subst hk1
          cases hk2 : k2 with
          | zero =>
            subst hk2
            cases hdpz : dp with
            | zero => exact ⟨by omega, by simp, by simpa using hdp0 hdpz⟩
            | succ e =>
              rw [hdpz] at hgv
              cases cs with
              | nil =>
                rw [genGo_succ_nil] at hgv
                exact absurd hgv (by simp)
              | cons c2 cs2 =>
                exact absurd hgv
                  (genGo_cons_ne_some_zero escaped isOp isCl c c2 cs2 e ins2)
          | succ k3 =>
            subst hk2
            cases hdpz : dp with
            | zero =>
              rw [hdpz, genGo_depth_zero] at hgv
              exact absurd hgv (by simp)
            | succ e =>
              rw [hdpz] at hgv
              obtain ⟨ha, hb, hc⟩ := ihn cs c e ins2 (k3 + 1) (by simp at hn; omega) hgv
              refine ⟨by omega, by simp at hb ⊢; omega, ?_⟩
              simpa using hc
      cases escaped with
      | true =>
        rw [if_pos rfl] at hk
        by_cases hq : c = '\\' ∧ cs.head? = some '"'
        · rw [if_pos hq] at hk
          exact skip2 '"' (!instr) hk (by
            intro he
            rw [he] at hq
            exact absurd hq.2 (by simp))
        · rw [if_neg hq] at hk
          by_cases hbs : c = '\\' ∧ instr = true ∧ cs.head? = some '\\'
          · rw [if_pos hbs] at hk
            exact skip2 '\\' instr hk (by
              intro he
              rw [he] at hbs
              exact absurd hbs.2.2 (by simp))
          · rw [if_neg hbs] at hk
            refine consume1 _ instr hk ?_
            intro h0
            by_cases hin : (!instr) = true
            · rw [if_pos hin] at h0
              by_cases hop : isOp c = true
              · rw [if_pos hop] at h0; omega
              · rw [if_neg hop] at h0
                by_cases hcl : isCl c = true
                · exact hcl
                · rw [if_neg hcl] at h0; omega
            · rw [if_neg hin] at h0; omega
      | false =>
        rw [if_neg (by decide : ¬false = true)] at hk
        by_cases hq : c = '"' ∧ prev ≠ '\\'
        · rw [if_pos hq] at hk
          exact consume1 (d + 1) (!instr) hk (fun h0 => absurd h0 (by omega))
        · rw [if_neg hq] at hk
          by_cases hbs : c = '\\' ∧ instr = true ∧ cs ≠ []
          · rw [if_pos hbs] at hk
            exact skip2 (cs.headD ' ') instr hk hbs.2.2
          · rw [if_neg hbs] at hk
            refine consume1 _ instr hk ?_
            intro h0
            by_cases hin : (!instr) = true
            · rw [if_pos hin] at h0
              by_cases hop : isOp c = true
              · rw [if_pos hop] at h0; omega
              · rw [if_neg hop] at h0
                by_cases hcl : isCl c = true
                · exact hcl
                · rw [if_neg hcl] at h0; omega
            · rw [if_neg hin] at h0; omega

end JsDecode

namespace JsDecode

/-- The source scanner equals the spec-side scanner that counts only the
bracket kind selected by the opening character. -/
theorem extract_balanced_eq_spec (text : List Char) (esc : Bool) :
    extract_balanced_json_with_escaped_strings text esc = openerKindBalanced text esc := by
  cases text with
  | nil => rfl
  | cons c0 cs =>
    by_cases h1 : c0 = '{'
    · subst h1
      have hL : extract_balanced_json_with_escaped_strings ('{' :: cs) esc =
          (ebGo ('{' :: cs) esc '{' '}' 1 1 false).map (fun i => ('{' :: cs).take i) := by
        simp [extract_balanced_json_with_escaped_strings]
      have hR : openerKindBalanced ('{' :: cs) esc =
          (genGo esc (fun ch => ch = '{') (fun ch => ch = '}') '{' cs 1 false).map
            (fun k => ('{' :: cs).take (1 + k)) := by
        simp [openerKindBalanced, specBalancedGen]
      rw [hL, hR, ebGo_eq_genGo ('{' :: cs) esc '{' '}' ('{' :: cs).length 1 1 false
        (by omega) (by omega)]
      simp only [Nat.sub_self, List.getD_cons_zero, List.drop_succ_cons, List.drop_zero]
      cases genGo esc (fun ch => ch = '{') (fun ch => ch = '}') '{' cs 1 false with
      | none => rfl
      | some k => rfl
    · by_cases h2 : c0 = '['
      · subst h2
        have hL : extract_balanced_json_with_escaped_strings ('[' :: cs) esc =
            (ebGo ('[' :: cs) esc '[' ']' 1 1 false).map (fun i => ('[' :: cs).take i) := by
          simp [extract_balanced_json_with_escaped_strings]
        have hR : openerKindBalanced ('[' :: cs) esc =
            (genGo esc (fun ch => ch = '[') (fun ch => ch = ']') '[' cs 1 false).map
              (fun k => ('[' :: cs).take (1 + k)) := by
          simp [openerKindBalanced, specBalancedGen]
        rw [hL, hR, ebGo_eq_genGo ('[' :: cs) esc '[' ']' ('[' :: cs).length 1 1 false
          (by omega) (by omega)]
        simp only [Nat.sub_self, List.getD_cons_zero, List.drop_succ_cons, List.drop_zero]
        cases genGo esc (fun ch => ch = '[') (fun ch => ch = ']') '[' cs 1 false with
        | none => rfl
        | some k => rfl
      · simp [extract_balanced_json_with_escaped_strings, openerKindBalanced,
          specBalancedGen, h1, h2]

end JsDecode

namespace JsDecode

/-- Claim C1 (corrected): the Balanced Region Scanner does not count both
bracket kinds; it counts only the kind selected by the opening character.  On
input `{[}` in literal mode the claim's both-kind counter never returns to
zero (so the claim predicts `None`), yet the scanner returns the whole
input. -/
theorem C1_counterexample_both_kinds :
    extract_balanced_json_with_escaped_strings ['{', '[', '}'] false =
      some ['{', '[', '}'] ∧
    claimBothKindsBalanced ['{', '[', '}'] false = none := by
  constructor
  · rw [extract_balanced_eq_spec]
    simp [openerKindBalanced, specBalancedGen, genGo]
  · simp [claimBothKindsBalanced, specBalancedGen, genGo]

/-- Claim C1 (amended): for every input and both quoting modes, the scanner
behaves as the spec-side scanner in which, outside of string state, only the
bracket kind selected by the first character increments and decrements the
single depth counter (the other kind is ignored); it returns the prefix at
which that counter first returns to zero, or `None` if the input ends
first. -/
theorem C1_balanced_scanner_amended (text : List Char) (esc : Bool) :
    extract_balanced_json_with_escaped_strings text esc = openerKindBalanced text esc :=
  extract_balanced_eq_spec text esc

/-- Claim C10: whenever the balanced-region scanner returns `Some s`, `s` is a
non-empty prefix of the input starting at offset 0, its first character is the
input's opening `{` or `[`, and its last character is the corresponding
closing `}` or `]`. -/
theorem C10_balanced_result_shape (text : List Char) (esc : Bool) (s : List Char)
    (h : extract_balanced_json_with_escaped_strings text esc = some s) :
    s ≠ [] ∧ s.head? = text.head? ∧
    (text.head? = some '{' ∨ text.head? = some '[') ∧
    List.IsPrefix s text ∧
    s.getLast? = some (if text.head? = some '{' then '}' else ']') := by
  rw [extract_balanced_eq_spec] at h
  cases text with
  | nil => exact absurd h (by simp [openerKindBalanced, specBalancedGen])
  | cons c0 cs =>
    by_cases h1 : c0 = '{'
    · subst h1
      rw [openerKindBalanced, if_pos (by simp), specBalancedGen] at h
      rw [if_neg (by simp)] at h
      obtain ⟨k, hg, hs⟩ := Option.map_eq_some'.mp h
      obtain ⟨hk1, hk2, hk3⟩ :=
        genGo_some_last esc (fun ch => ch = '{') (fun ch => ch = '}')
          cs.length cs '{' 0 false k (le_refl _) hg
      have hcl : cs.getD (k - 1) ' ' = '}' := by simpa using hk3
      obtain ⟨k2, rfl⟩ : ∃ k2, k = k2 + 1 := ⟨k - 1, by omega⟩
      have hpre : List.IsPrefix s ('{' :: cs) := hs ▸ List.take_prefix _ _
      have hlast : s.getLast? = some '}' := by
        rw [← hs, getLast?_take_getD ('{' :: cs) (1 + (k2 + 1)) (by omega)
          (by simp; omega)]
        congr 1
        have : 1 + (k2 + 1) - 1 = k2 + 1 := by omega
        rw [this, List.getD_cons_succ]
        simpa using hcl
      have hT : ('{' :: cs).take (1 + (k2 + 1)) = '{' :: cs.take (k2 + 1) := by
        rw [Nat.add_comm]
        exact List.take_succ_cons
      rw [hT] at hs
      subst hs
      exact ⟨by simp, by simp, Or.inl rfl, hpre, by simpa using hlast⟩
    · by_cases h2 : c0 = '['
      · subst h2
        rw [openerKindBalanced, if_neg (by simp), specBalancedGen] at h
        rw [if_neg (by simp)] at h
        obtain ⟨k, hg, hs⟩ := Option.map_eq_some'.mp h
        obtain ⟨hk1, hk2, hk3⟩ :=
          genGo_some_last esc (fun ch => ch = '[') (fun ch => ch = ']')
            cs.length cs '[' 0 false k (le_refl _) hg
        have hcl : cs.getD (k - 1) ' ' = ']' := by simpa using hk3
        obtain ⟨k2, rfl⟩ : ∃ k2, k = k2 + 1 := ⟨k - 1, by omega⟩
        have hpre : List.IsPrefix s ('[' :: cs) := hs ▸ List.take_prefix _ _
        have hlast : s.getLast? = some ']' := by
          rw [← hs, getLast?_take_getD ('[' :: cs) (1 + (k2 + 1)) (by omega)
            (by simp; omega)]
          congr 1
          have : 1 + (k2 + 1) - 1 = k2 + 1 := by omega
          rw [this, List.getD_cons_succ]
          simpa using hcl
        have hT : ('[' :: cs).take (1 + (k2 + 1)) = '[' :: cs.take (k2 + 1) := by
          rw [Nat.add_comm]
          exact List.take_succ_cons
        rw [hT] at hs
        subst hs
        refine ⟨by simp, by simp, Or.inr rfl, hpre, ?_⟩
        rw [if_neg (by simp)]
        simpa using hlast
      · rw [openerKindBalanced, if_neg (by simp [h1]), specBalancedGen,
          if_pos ⟨h1, h2⟩] at h
        exact absurd h (by simp)

/-- Witness for claim C10 at the concrete input `{}` in literal mode. -/
theorem C10_balanced_result_shape_witness :
    extract_balanced_json_with_escaped_strings ['{', '}'] false = some ['{', '}'] ∧
    (['{', '}'] ≠ ([] : List Char) ∧ (['{', '}'] : List Char).head? = (['{', '}'] : List Char).head? ∧
      ((['{', '}'] : List Char).head? = some '{' ∨ (['{', '}'] : List Char).head? = some '[') ∧
      List.IsPrefix (['{', '}'] : List Char) ['{', '}'] ∧
      (['{', '}'] : List Char).getLast? =
        some (if (['{', '}'] : List Char).head? = some '{' then '}' else ']')) :=
  ⟨by rw [extract_balanced_eq_spec]; simp [openerKindBalanced, specBalancedGen, genGo],
   C10_balanced_result_shape ['{', '}'] false ['{', '}']
     (by rw [extract_balanced_eq_spec]; simp [openerKindBalanced, specBalancedGen, genGo])⟩

end JsDecode

namespace JsDecode

/-- Continuation characters tested after a newline
(`src/js_decode.rs` line 195). -/
def contChars : List Char := ['.', ',', '+', '-', '*', '/']

/-- Decide whether a newline at zero depth ends the statement: it does unless
the next non-whitespace character is a continuation character
(`src/js_decode.rs` lines 192-197). -/
def stopAfterNewline (cs : List Char) : Bool :=
  match cs.dropWhile isRustWhitespace with
  | [] => true
  | c :: _ => !(contChars.contains c)

/-- Scanning loop of `extract_until_statement_end` (`src/js_decode.rs` lines
142-206), with the five mutable locals (`brace_depth`, `bracket_depth`,
`in_string`, `string_char`, `escape_next`) as parameters.  The Rust function
wraps the result in `Ok` but never constructs an error. -/
def euseGo (bd kd : Int) (instr : Bool) (sc : Char) (esc : Bool) :
    List Char → List Char
  | [] => []
  | c :: cs =>
    if esc then c :: euseGo bd kd instr sc false cs
    else if c = '\\' then c :: euseGo bd kd instr sc true cs
    else if instr then c :: euseGo bd kd (if c = sc then false else instr) sc false cs
    else if c = '"' ∨ c = '\'' then c :: euseGo bd kd true c false cs
    else if c = '{' then c :: euseGo (bd + 1) kd instr sc false cs
    else if c = '}' then c :: euseGo (bd - 1) kd instr sc false cs
    else if c = '[' then c :: euseGo bd (kd + 1) instr sc false cs
    else if c = ']' then c :: euseGo bd (kd - 1) instr sc false cs
    else if c = ';' ∧ bd = 0 ∧ kd = 0 then []
    else if c = '\n' ∧ bd = 0 ∧ kd = 0 then
      (if stopAfterNewline cs then [] else c :: euseGo bd kd instr sc false cs)
    else c :: euseGo bd kd instr sc false cs

/-- `extract_until_statement_end` (`src/js_decode.rs` lines 142-206). -/
def extract_until_statement_end (input : List Char) : List Char :=
  euseGo 0 0 false '"' false input

/-- Scanner state of the Statement Value Extractor, for the spec-side
characterization. -/
structure ScanState where
  bd : Int
  kd : Int
  instr : Bool
  sc : Char
  esc : Bool
deriving DecidableEq, Repr

/-- One character of the spec's state machine (§4.2). -/
def specStep (st : ScanState) (c : Char) : ScanState :=
  if st.esc then { st with esc := false }
  else if c = '\\' then { st with esc := true }
  else if st.instr then { st with instr := if c = st.sc then false else st.instr }
  else if c = '"' ∨ c = '\'' then { st with instr := true, sc := c }
  else if c = '{' then { st with bd := st.bd + 1 }
  else if c = '}' then { st with bd := st.bd - 1 }
  else if c = '[' then { st with kd := st.kd + 1 }
  else if c = ']' then { st with kd := st.kd - 1 }
  else st

/-- Initial scanner state. -/
def initScanState : ScanState := ⟨0, 0, false, '"', false⟩

/-- State of the scanner after the first `i` characters of `input`. -/
def stateAfter (input : List Char) (i : Nat) : ScanState :=
  (input.take i).foldl specStep initScanState

/-- Both depths zero, not in a string, and no escape pending. -/
def cleanState (st : ScanState) : Bool :=
  st.bd = 0 ∧ st.kd = 0 ∧ !st.instr ∧ !st.esc

/-- Does the character `c` (followed by `cs`) terminate the statement in
state `st`? -/
def termHere (st : ScanState) (c : Char) (cs : List Char) : Bool :=
  cleanState st && (c = ';' || (c = '\n' && stopAfterNewline cs))

/-- Position `i` of `input` is a statement terminator. -/
def isTermAt (input : List Char) (i : Nat) : Bool :=
  match input.drop i with
  | [] => false
  | c :: cs => termHere (stateAfter input i) c cs

/-- Claim C4's terminator notion as literally stated: depths zero and not
inside a string, with no condition on a pending escape. -/
def claimTermAt (input : List Char) (i : Nat) : Bool :=
  match input.drop i with
  | [] => false
  | c :: cs =>
    ((stateAfter input i).bd = 0 ∧ (stateAfter input i).kd = 0 ∧
      !(stateAfter input i).instr) &&
    (c = ';' || (c = '\n' && stopAfterNewline cs))

/-- Length of the prefix kept by the scanner starting in state `st`:
everything up to the first terminator. -/
def firstTermLen (st : ScanState) : List Char → Nat
  | [] => 0
  | c :: cs => if termHere st c cs then 0 else 1 + firstTermLen (specStep st c) cs

end JsDecode

namespace JsDecode

/-- The scanning loop keeps exactly the characters before the first
terminator (relative to its starting state). -/
theorem euseGo_eq_take_firstTermLen :
    ∀ (cs : List Char) (bd kd : Int) (instr : Bool) (sc : Char) (esc : Bool),
      euseGo bd kd instr sc esc cs =
        cs.take (firstTermLen ⟨bd, kd, instr, sc, esc⟩ cs) := by
  intro cs
  induction cs with
  | nil => intro bd kd instr sc esc; rfl
  | cons c cs ih =>
    intro bd kd instr sc esc
    by_cases hesc : esc = true
    · subst hesc
      simp [euseGo, firstTermLen, termHere, cleanState, specStep, Nat.one_add, ih]
    · have hesc' : esc = false := by revert hesc; cases esc <;> simp
      subst hesc'
      by_cases hbs : c = '\\'
      · subst hbs
        simp [euseGo, firstTermLen, termHere, cleanState, specStep, Nat.one_add, ih]
      · by_cases hin : instr = true
        · subst hin
          simp [euseGo, firstTermLen, termHere, cleanState, specStep, hbs,
            Nat.one_add, ih]
        · have hin' : instr = false := by revert hin; cases instr <;> simp
          subst hin'
          by_cases hq : c = '"' ∨ c = '\''
          · have hq1 : ¬c = ';' := by rcases hq with h | h <;> (subst h; decide)
            have hq2 : ¬c = '\n' := by rcases hq with h | h <;> (subst h; decide)
            simp [euseGo, firstTermLen, termHere, cleanState, specStep, hbs, hq,
              hq1, hq2, Nat.one_add, ih]
          · by_cases hc1 : c = '{'
            · subst hc1
              simp [euseGo, firstTermLen, termHere, cleanState, specStep,
                Nat.one_add, ih]
            · by_cases hc2 : c = '}'
              · subst hc2
                simp [euseGo, firstTermLen, termHere, cleanState, specStep,
                  Nat.one_add, ih]
              · by_cases hc3 : c = '['
                · subst hc3
                  simp [euseGo, firstTermLen, termHere, cleanState, specStep,
                    Nat.one_add, ih]
                · by_cases hc4 : c = ']'
                  · subst hc4
                    simp [euseGo, firstTermLen, termHere, cleanState, specStep,
                      Nat.one_add, ih]
                  · by_cases hc5 : c = ';'
                    · subst hc5
                      by_cases hz : bd = 0 ∧ kd = 0
                      · simp [euseGo, firstTermLen, termHere, cleanState, specStep,
                          hbs, hq, hc1, hc2, hc3, hc4, hz, Nat.one_add, ih]
                      · simp [euseGo, firstTermLen, termHere, cleanState, specStep,
                          hbs, hq, hc1, hc2, hc3, hc4, hz, Nat.one_add, ih]
                    · by_cases hc6 : c = '\n'
                      · subst hc6
                        by_cases hz : bd = 0 ∧ kd = 0
                        · by_cases hstop : stopAfterNewline cs = true
                          · simp [euseGo, firstTermLen, termHere, cleanState,
                              specStep, hbs, hq, hc1, hc2, hc3, hc4, hz, hstop,
                              Nat.one_add, ih]
                          · simp [euseGo, firstTermLen, termHere, cleanState,
                              specStep, hbs, hq, hc1, hc2, hc3, hc4, hz, hstop,
                              Nat.one_add, ih]
                        · simp [euseGo, firstTermLen, termHere, cleanState,
                            specStep, hbs, hq, hc1, hc2, hc3, hc4, hz,
                            Nat.one_add, ih]
                      · simp [euseGo, firstTermLen, termHere, cleanState, specStep,
                          hbs, hq, hc1, hc2, hc3, hc4, hc5, hc6, Nat.one_add, ih]

end JsDecode

namespace JsDecode

/-- The scanner state after `j + 1` characters is one step past the state
after `j` characters. -/
theorem stateAfter_succ (input : List Char) (j : Nat) (hj : j < input.length) :
    stateAfter input (j + 1) = specStep (stateAfter input j) (input.getD j ' ') := by
  unfold stateAfter
  rw [List.take_succ]
  rw [List.getElem?_eq_getElem hj]
  rw [List.foldl_append]
  simp [List.getD_eq_getElem?_getD, List.getElem?_eq_getElem hj]

/-- From position `j`, if the first terminator at or after `j` is at `i`,
the scanner keeps exactly `i - j` characters. -/
theorem firstTermLen_eq_of_term (input : List Char) (i : Nat)
    (hterm : isTermAt input i = true) :
    ∀ (m j : Nat), i - j ≤ m → j ≤ i →
      (∀ j', j ≤ j' → j' < i → isTermAt input j' = false) →
      firstTermLen (stateAfter input j) (input.drop j) = i - j := by
  have hlen : i < input.length := by
    unfold isTermAt at hterm
    by_cases h : i < input.length
    · exact h
    · rw [List.drop_eq_nil_of_le (by omega)] at hterm
      simp at hterm
  have hat : ∀ j, j = i → firstTermLen (stateAfter input j) (input.drop j) = 0 := by
    intro j hj
    subst hj
    unfold isTermAt at hterm
    rw [dropGetD input j hlen] at hterm ⊢
    have hterm' : termHere (stateAfter input j) (input.getD j ' ')
        (input.drop (j + 1)) = true := hterm
    rw [firstTermLen, if_pos hterm']
  intro m
  induction m with
  | zero =>
    intro j hm hji hno
    have hj : j = i := by omega
    rw [hat j hj, hj]
    omega
  | succ m ihm =>
    intro j hm hji hno
    by_cases hj : j = i
    · rw [hat j hj, hj]
      omega
    · have hjlt : j < i := by omega
      have hjlen : j < input.length := by omega
      have hnoj : isTermAt input j = false := hno j (le_refl j) hjlt
      rw [dropGetD input j hjlen, firstTermLen]
      have hcond : termHere (stateAfter input j) (input.getD j ' ')
          (input.drop (j + 1)) = false := by
        unfold isTermAt at hnoj
        rw [dropGetD input j hjlen] at hnoj
        exact hnoj
      have hcond' : ¬(termHere (stateAfter input j) (input.getD j ' ')
          (input.drop (j + 1)) = true) := by
        rw [hcond]; decide
      rw [if_neg hcond']
      rw [← stateAfter_succ input j hjlen]
      rw [ihm (j + 1) (by omega) (by omega) (fun j' h1 h2 => hno j' (by omega) h2)]
      omega

/-- From position `j`, if no terminator exists anywhere, the scanner keeps
the entire remaining input. -/
theorem firstTermLen_eq_of_no_term (input : List Char)
    (hno : ∀ i, isTermAt input i = false) :
    ∀ (m j : Nat), input.length - j ≤ m →
      firstTermLen (stateAfter input j) (input.drop j) = input.length - j := by
  intro m
  induction m with
  | zero =>
    intro j hm
    rw [List.drop_eq_nil_of_le (by omega), firstTermLen]
    omega
  | succ m ihm =>
    intro j hm
    by_cases hjlen : j < input.length
    · rw [dropGetD input j hjlen, firstTermLen]
      have hcond : termHere (stateAfter input j) (input.getD j ' ')
          (input.drop (j + 1)) = false := by
        have := hno j
        unfold isTermAt at this
        rw [dropGetD input j hjlen] at this
        exact this
      have hcond' : ¬(termHere (stateAfter input j) (input.getD j ' ')
          (input.drop (j + 1)) = true) := by
        rw [hcond]; decide
      rw [if_neg hcond']
      rw [← stateAfter_succ input j hjlen]
      rw [ihm (j + 1) (by omega)]
      omega
    · rw [List.drop_eq_nil_of_le (by omega), firstTermLen]
      omega

/-- Claim C4 (amended): a `;` at brace and bracket depth 0, outside a string,
and with no pending escape terminates the statement and is excluded; a `\n`
under the same conditions terminates unless the next non-whitespace character
is a continuation character.  Formally: the extractor returns exactly the
prefix before the first such terminator, and the whole input when no
terminator exists. -/
theorem C4_statement_end_characterization :
    (∀ (input : List Char) (i : Nat), isTermAt input i = true →
        (∀ j, j < i → isTermAt input j = false) →
        extract_until_statement_end input = input.take i) ∧
    (∀ (input : List Char), (∀ i, isTermAt input i = false) →
        extract_until_statement_end input = input) := by
  constructor
  · intro input i hterm hmin
    rw [extract_until_statement_end, euseGo_eq_take_firstTermLen]
    have h0 := firstTermLen_eq_of_term input i hterm i 0 (by omega) (by omega)
      (fun j' _ h2 => hmin j' h2)
    rw [show stateAfter input 0 = initScanState from rfl] at h0
    rw [show input.drop 0 = input from rfl] at h0
    rw [show (⟨0, 0, false, '"', false⟩ : ScanState) = initScanState from rfl, h0]
    simp
  · intro input hno
    rw [extract_until_statement_end, euseGo_eq_take_firstTermLen]
    have h0 := firstTermLen_eq_of_no_term input hno input.length 0 (by omega)
    rw [show stateAfter input 0 = initScanState from rfl] at h0
    rw [show input.drop 0 = input from rfl] at h0
    rw [show (⟨0, 0, false, '"', false⟩ : ScanState) = initScanState from rfl, h0]
    simp

/-- Witness for the amended claim C4: `42;` stops at the semicolon. -/
theorem C4_statement_end_characterization_witness :
    isTermAt ['4', '2', ';'] 2 = true ∧
    extract_until_statement_end ['4', '2', ';'] = ['4', '2'] :=
  ⟨by decide,
    by
      have h := C4_statement_end_characterization.1 ['4', '2', ';'] 2 (by decide)
        (by
          intro j hj
          match j with
          | 0 => decide
          | 1 => decide
          | n + 2 => omega)
      simpa using h⟩

/-- Claim C4 (corrected): a semicolon at both depths 0 and outside a string
does not terminate the statement when it is consumed as an escaped character:
on input `\;` the position of `;` satisfies the claim's conditions (depths 0,
not inside a string), yet the scanner includes it and continues. -/
theorem C4_counterexample_escaped_semicolon :
    claimTermAt ['\\', ';'] 1 = true ∧
    extract_until_statement_end ['\\', ';'] = ['\\', ';'] ∧
    (['\\', ';'] : List Char).take 1 = ['\\'] :=
  ⟨by decide, by decide, by decide⟩

end JsDecode

namespace JsDecode

/-- `JsValue` (`src/js_decode.rs` lines 3-10): either a parsed JSON value or
raw text.  The JSON value type `J` abstracts the external `serde_json::Value`
(the `serde_json` crate is not part of this repository). -/
inductive JsValue (J : Type) where
  /-- A parsed JSON value. -/
  | json (v : J) : JsValue J
  /-- Raw text that could not be parsed as JSON. -/
  | raw (s : List Char) : JsValue J
deriving DecidableEq, Repr

/-- Closing-quote scan of `extract_json_parse` (`src/js_decode.rs` lines
91-114): number of characters before the unescaped closing quote (all of the
input if the quote never occurs), tracking one-character escape lookahead. -/
def scanQuote (q : Char) : Bool → List Char → Nat
  | _, [] => 0
  | true, _ :: cs => 1 + scanQuote q false cs
  | false, c :: cs =>
    if c = '\\' then 1 + scanQuote q true cs
    else if c = q then 0
    else 1 + scanQuote q false cs

/-- `extract_json_parse` (`src/js_decode.rs` lines 71-139), with the external
`serde_json::from_str` abstracted as `parse`. -/
def extract_json_parse {J : Type} (parse : List Char → Option J)
    (input : List Char) : Except JsErr (JsValue J) :=
  match stripPrefixL ("JSON.parse(".toList) input with
  | none => .error .expectedJsonParse
  | some after =>
    match after with
    | [] => .error .expectedQuote
    | q :: content =>
      if q ≠ '\'' ∧ q ≠ '"' then .error (.unsupportedQuote q)
      else
        let endPos := scanQuote q false content
        let encoded := content.take endPos
        match (if containsSub encoded ("\\x".toList) ∨ containsSub encoded ("\\u".toList)
          then decode_js_string encoded else decode_js_string encoded) with
        | .error e => .error (.decodeErr e)
        | .ok decoded =>
          match parse decoded with
          | some v => .ok (.json v)
          | none =>
            match parse (escape_json_control_chars decoded) with
            | some v => .ok (.json v)
            | none => .ok (.raw decoded)

/-- `extract_js_variable` (`src/js_decode.rs` lines 33-68).  The call to
`extract_until_statement_end` is modelled as total because the Rust function
always returns `Ok`. -/
def extract_js_variable {J : Type} (parse : List Char → Option J)
    (script_content var_pattern : List Char) : Except JsErr (JsValue J) :=
  let pattern_with_eq := trimL var_pattern ++ " = ".toList
  match findSub script_content pattern_with_eq with
  | none => .error .varNotFound
  | some start_pos =>
    let remaining := script_content.drop (start_pos + pattern_with_eq.length)
    if ("JSON.parse(".toList).isPrefixOf (trimStartL remaining) then
      extract_json_parse parse (trimStartL remaining)
    else
      let trimmed := trimL (extract_until_statement_end remaining)
      match parse trimmed with
      | some v => .ok (.json v)
      | none =>
        match parse (escape_json_control_chars trimmed) with
        | some v => .ok (.json v)
        | none => .ok (.raw trimmed)

/-- Spec-side processing of the string argument captured by the JSON.parse
extractor: decode it, parse the decoded text, retry after JSON repair, or
fall back to raw text. -/
def processParseArgument {J : Type} (parse : List Char → Option J)
    (body : List Char) : Except JsErr (JsValue J) :=
  match decode_js_string body with
  | .error e => .error (.decodeErr e)
  | .ok decoded =>
    match parse decoded with
    | some v => .ok (.json v)
    | none =>
      match parse (escape_json_control_chars decoded) with
      | some v => .ok (.json v)
      | none => .ok (.raw decoded)

/-- No unescaped occurrence of the character `q`: every occurrence of `q` is
consumed as the character following a backslash. -/
def noUnescapedQuote (q : Char) : List Char → Bool
  | [] => true
  | ['\\'] => true
  | '\\' :: _ :: cs => noUnescapedQuote q cs
  | c :: cs => (c ≠ q) && noUnescapedQuote q cs

end JsDecode

namespace JsDecode

/-- When `body` has no unescaped occurrence of the quote character, the
closing-quote scan consumes all of it. -/
theorem scanQuote_full (q : Char) :
    ∀ (n : Nat) (body : List Char), body.length ≤ n → q ≠ '\\' →
      noUnescapedQuote q body = true → scanQuote q false body = body.length := by
  intro n
  induction n with
  | zero =>
    intro body hn _ _
    have : body = [] := List.eq_nil_of_length_eq_zero (by omega)
    subst this
    rfl
  | succ n ihn =>
    intro body hn hq hnu
    cases body with
    | nil => rfl
    | cons c cs =>
      by_cases hc : c = '\\'
      · subst hc
        cases cs with
        | nil => rfl
        | cons x cs2 =>
          have hnu2 : noUnescapedQuote q cs2 = true := hnu
          simp only [scanQuote, if_pos rfl]
          rw [ihn cs2 (by simp at hn; omega) hq hnu2]
          simp
          omega
      · have hnu' : (decide (c ≠ q) && noUnescapedQuote q cs) = true := by
          cases cs with
          | nil =>
            revert hnu
            simp [noUnescapedQuote, hc]
          | cons y ys =>
            revert hnu
            simp [noUnescapedQuote, hc]
        rw [Bool.and_eq_true] at hnu'
        obtain ⟨hcq, hnucs⟩ := hnu'
        have hcq' : ¬c = q := by simpa using hcq
        simp only [scanQuote, if_neg hc, if_neg hcq']
        rw [ihn cs (by simp at hn; omega) hq hnucs]
        simp
        omega

/-- Claim C6: for input `JSON.parse(` followed by a quote character and a body
with no unescaped occurrence of that quote, no error is raised for the
missing closing quote: the scan stops at end of input and the entire
remainder is taken as the string argument and processed (decoded, parsed,
repaired, or returned as raw text). -/
theorem C6_unterminated_literal_processes_remainder {J : Type}
    (parse : List Char → Option J) (q : Char) (body : List Char)
    (hq : q = '\'' ∨ q = '"') (hnu : noUnescapedQuote q body = true) :
    extract_json_parse parse ("JSON.parse(".toList ++ q :: body) =
      processParseArgument parse body := by
  have hqb : q ≠ '\\' := by rcases hq with h | h <;> (subst h; decide)
  have hstrip : stripPrefixL ("JSON.parse(".toList) ("JSON.parse(".toList ++ q :: body) =
      some (q :: body) := by
    unfold stripPrefixL
    rw [if_pos (List.isPrefixOf_iff_prefix.mpr (List.prefix_append _ _))]
    rw [List.drop_left]
  simp only [extract_json_parse, hstrip]
  rw [if_neg (by rcases hq with h | h <;> simp [h])]
  rw [scanQuote_full q body.length body (le_refl _) hqb hnu]
  rw [List.take_length]
  rw [ite_self]
  rfl

/-- Witness for claim C6: `JSON.parse('ab` (no closing quote) processes the
whole remainder `ab`. -/
theorem C6_unterminated_literal_witness :
    (('\'' : Char) = '\'' ∨ ('\'' : Char) = '"') ∧
    noUnescapedQuote '\'' ['a', 'b'] = true ∧
    extract_json_parse (fun _ : List Char => (none : Option Unit))
        ("JSON.parse(".toList ++ '\'' :: ['a', 'b']) =
      processParseArgument (fun _ : List Char => (none : Option Unit)) ['a', 'b'] :=
  ⟨Or.inl rfl, by decide,
    C6_unterminated_literal_processes_remainder (fun _ => none) '\'' ['a', 'b']
      (Or.inl rfl) (by decide)⟩

end JsDecode

namespace JsDecode

/-- `dropWhile` is the identity on a list whose head fails the predicate. -/
theorem dropWhile_head_false (p : Char → Bool) (l : List Char)
    (h : ∀ c, l.head? = some c → p c = false) : l.dropWhile p = l := by
  cases l with
  | nil => rfl
  | cons c t => rw [List.dropWhile_cons_of_neg (by simp [h c rfl])]

/-- `dropWhile` is idempotent. -/
theorem dropWhile_self_idem (p : Char → Bool) (l : List Char) :
    (l.dropWhile p).dropWhile p = l.dropWhile p := by
  apply dropWhile_head_false
  intro c hc
  have hh := List.head?_dropWhile_not p l
  rw [hc] at hh
  exact hh

/-- `trimEndL` is idempotent. -/
theorem trimEndL_idem (l : List Char) : trimEndL (trimEndL l) = trimEndL l := by
  unfold trimEndL
  rw [List.reverse_reverse, dropWhile_self_idem]

/-- Trimming the end of a start-trimmed list leaves nothing to trim at the
start. -/
theorem trimStartL_trimEndL_trimStartL (l : List Char) :
    trimStartL (trimEndL (trimStartL l)) = trimEndL (trimStartL l) := by
  apply dropWhile_head_false
  intro c hc
  have hpre : List.IsPrefix (trimEndL (trimStartL l)) (trimStartL l) := by
    unfold trimEndL
    have hsuf := List.dropWhile_suffix (l := (trimStartL l).reverse) isRustWhitespace
    have := List.reverse_prefix.mpr hsuf
    rwa [List.reverse_reverse] at this
  obtain ⟨t, ht⟩ := hpre
  have hX : (trimStartL l).head? = some c := by
    rw [← ht]
    cases htE : trimEndL (trimStartL l) with
    | nil => rw [htE] at hc; exact absurd hc (by simp)
    | cons a b =>
      rw [htE] at hc
      simp at hc
      simp [hc]
  have hh := List.head?_dropWhile_not isRustWhitespace l
  rw [show trimStartL l = l.dropWhile isRustWhitespace from rfl] at hX
  rw [hX] at hh
  exact hh

/-- `trimL` is idempotent, like Rust `str::trim`. -/
theorem trimL_idem (l : List Char) : trimL (trimL l) = trimL l := by
  unfold trimL
  rw [trimStartL_trimEndL_trimStartL, trimEndL_idem]

/-- Claim C9: `extract_js_variable` trims the variable pattern before
searching, so the result on `p` equals the result on `trim(p)`; and the
searched-for text is `trim(p) ++ " = "`: the `VariableNotFound` error occurs
exactly when that text is absent from the script. -/
theorem C9_pattern_trimming {J : Type} (parse : List Char → Option J)
    (script p : List Char) :
    extract_js_variable parse script p = extract_js_variable parse script (trimL p) ∧
    (extract_js_variable parse script p = .error .varNotFound ↔
      findSub script (trimL p ++ " = ".toList) = none) := by
  constructor
  · unfold extract_js_variable
    rw [trimL_idem]
  · unfold extract_js_variable
    cases hf : findSub script (trimL p ++ " = ".toList) with
    | none => simp only [hf]
    | some i =>
      simp only [hf]
      constructor
      · intro h
        exfalso
        by_cases hjp : ("JSON.parse(".toList).isPrefixOf
            (trimStartL (script.drop (i + (trimL p ++ " = ".toList).length))) = true
        · rw [if_pos hjp] at h
          unfold extract_json_parse at h
          split at h
          · simp at h
          · split at h
            · simp at h
            · split at h
              · simp at h
              · simp only [] at h
                split at h
                · simp at h
                · split at h
                  · simp at h
                  · split at h
                    · simp at h
                    · simp at h
        · rw [if_neg hjp] at h
          split at h
          · simp at h
          · split at h
            · simp at h
            · simp at h
      · intro h
        exact absurd h (by simp)

end JsDecode

namespace JsDecode

deriving instance DecidableEq for Except

/-- Claim C2 (corrected): the counterexample script contains the searched-for
text `var x = `, yet `extract_js_variable` returns an error — and not
`VariableNotFound` but the JSON.parse-path error for a missing quote. -/
theorem C2_counterexample_jsonparse_error :
    findSub ("var x = JSON.parse(".toList) (trimL ("var x".toList) ++ " = ".toList) =
      some 0 ∧
    extract_js_variable (fun _ : List Char => (none : Option Unit))
      ("var x = JSON.parse(".toList) ("var x".toList) = .error .expectedQuote :=
  ⟨by decide, by decide⟩

/-- Claim C2 (amended): whenever the text `trim(pattern) ++ " = "` occurs in
the script and the text following it does not begin with `JSON.parse(` after
leading whitespace, `extract_js_variable` never returns an error: unparseable
right-hand sides degrade to `RawText`. -/
theorem C2_resolver_no_error_off_jsonparse_path {J : Type}
    (parse : List Char → Option J) (script p : List Char) (i : Nat)
    (hf : findSub script (trimL p ++ " = ".toList) = some i)
    (hnjp : ¬("JSON.parse(".toList).isPrefixOf
        (trimStartL (script.drop (i + (trimL p ++ " = ".toList).length))) = true) :
    ∃ v, extract_js_variable parse script p = .ok v := by
  unfold extract_js_variable
  simp only [hf]
  rw [if_neg hnjp]
  cases hp1 : parse (trimL (extract_until_statement_end
      (script.drop (i + (trimL p ++ " = ".toList).length)))) with
  | some v =>
    exact ⟨.json v, by simp only [hp1]⟩
  | none =>
    simp only [hp1]
    cases hp2 : parse (escape_json_control_chars (trimL (extract_until_statement_end
        (script.drop (i + (trimL p ++ " = ".toList).length))))) with
    | some v => exact ⟨.json v, by simp only [hp2]⟩
    | none =>
      exact ⟨.raw (trimL (extract_until_statement_end
        (script.drop (i + (trimL p ++ " = ".toList).length)))), by simp only [hp2]⟩

/-- Witness for the amended claim C2 on `var count = 42;`. -/
theorem C2_resolver_no_error_witness :
    findSub ("var count = 42;".toList) (trimL ("var count".toList) ++ " = ".toList) =
      some 0 ∧
    ¬("JSON.parse(".toList).isPrefixOf
        (trimStartL (("var count = 42;".toList).drop
          (0 + (trimL ("var count".toList) ++ " = ".toList).length))) = true ∧
    ∃ v, extract_js_variable (fun _ : List Char => (none : Option Unit))
        ("var count = 42;".toList) ("var count".toList) = .ok v :=
  ⟨by decide, by decide,
    C2_resolver_no_error_off_jsonparse_path (fun _ => none)
      ("var count = 42;".toList) ("var count".toList) 0 (by decide) (by decide)⟩

end JsDecode

namespace JsDecode

/-- `find_object_start_plain` walk, over the reversed text: returns the
position from the end (0-based) of the `{` that closes depth 0. -/
def fospGo (rev : List Char) (depth : Nat) : Option Nat :=
  match rev with
  | [] => none
  | c :: rest =>
    if c = '}' then (fospGo rest (depth + 1)).map (· + 1)
    else if c = '{' then
      (if depth = 0 then some 0 else (fospGo rest (depth - 1)).map (· + 1))
    else (fospGo rest depth).map (· + 1)

/-- `find_object_start_plain` (`src/js_decode.rs` lines 416-433): index of the
opening brace of the innermost unclosed plain-brace object, walking backwards.
(The Rust code walks a character vector, so the returned index counts
characters.) -/
def find_object_start_plain (text : List Char) : Option Nat :=
  (fospGo text.reverse 0).map (fun p => text.length - 1 - p)

/-- The escaped-convention key pattern `\"<key>\":` built by
`extract_nextjs_rsc` (`src/js_decode.rs` line 364). -/
def escapedKeyPattern (key : List Char) : List Char :=
  '\\' :: '"' :: key ++ ['\\', '"', ':']

/-- The literal-convention key pattern `"<key>":` built by
`extract_nextjs_rsc` (`src/js_decode.rs` line 365). -/
def literalKeyPattern (key : List Char) : List Char :=
  '"' :: key ++ ['"', ':']

/-- Processing of one key-pattern occurrence in `extract_nextjs_rsc`
(`src/js_decode.rs` lines 373-406): the value pushed for this occurrence, if
any.  `parse` abstracts `serde_json::from_str` and `getKey v k` abstracts
`v.get(k).is_some()`. -/
def rscCandidate {J : Type} (parse : List Char → Option J)
    (getKey : J → List Char → Bool) (script json_key : List Char)
    (abs_pos : Nat) (is_escaped : Bool) : Option J :=
  match find_object_start_plain (script.take abs_pos) with
  | none => none
  | some obj_start =>
    match extract_balanced_json_with_escaped_strings (script.drop obj_start) is_escaped with
    | none => none
    | some json_str =>
      let unescaped := if is_escaped then
          replaceSub json_str ['\\', '"'] ['"'] else json_str
      let decoded := match decode_js_string unescaped with
        | .ok d => d
        | .error _ => unescaped
      match parse decoded with
      | some v => if getKey v json_key then some v else none
      | none =>
        match parse (escape_json_control_chars decoded) with
        | some v => if getKey v json_key then some v else none
        | none => none

/-- The `while let` search loop of `extract_nextjs_rsc` (`src/js_decode.rs`
lines 369-409) for one pattern.  `fuel` bounds the iteration count; the
search start strictly increases by at least the (non-empty) pattern length
per iteration, so the callers' fuel of `script.length + 1` is never
exhausted. -/
def rscLoop {J : Type} (parse : List Char → Option J)
    (getKey : J → List Char → Bool) (script json_key pattern : List Char)
    (is_escaped : Bool) : Nat → Nat → List J → List J
  | 0, _, results => results
  | fuel + 1, search_start, results =>
    match findSub (script.drop search_start) pattern with
    | none => results
    | some key_pos =>
      let abs_pos := search_start + key_pos
      let results' :=
        match rscCandidate parse getKey script json_key abs_pos is_escaped with
        | some v => results ++ [v]
        | none => results
      rscLoop parse getKey script json_key pattern is_escaped fuel
        (abs_pos + pattern.length) results'

/-- `extract_nextjs_rsc` (`src/js_decode.rs` lines 354-413): accumulate, over
the escaped pattern then the literal pattern, every balanced object around a
key occurrence that parses and still contains the key.  The Rust function
wraps the vector in `Ok` but never errors. -/
def extract_nextjs_rsc {J : Type} (parse : List Char → Option J)
    (getKey : J → List Char → Bool) (script_content json_key : List Char) : List J :=
  let patterns := [(escapedKeyPattern json_key, true), (literalKeyPattern json_key, false)]
  patterns.foldl
    (fun results pe =>
      rscLoop parse getKey script_content json_key pe.1 pe.2
        (script_content.length + 1) 0 results)
    []

/-- A JSON value tree, standing in for the external `serde_json::Value` in
concrete instantiations. -/
inductive MiniJson where
  /-- JSON `null`. -/
  | null : MiniJson
  /-- A JSON boolean. -/
  | bool (b : Bool) : MiniJson
  /-- A JSON integer (the fragment used here has no fractions). -/
  | num (n : Int) : MiniJson
  /-- A JSON string. -/
  | str (s : List Char) : MiniJson
  /-- A JSON array. -/
  | arr (xs : List MiniJson) : MiniJson
  /-- A JSON object. -/
  | obj (fields : List (List Char × MiniJson)) : MiniJson

/-- Models `serde_json::Value::get(key).is_some()`: top-level object
membership. -/
def MiniJson.hasKey : MiniJson → List Char → Bool
  | .obj fields, k => fields.any (fun f => f.1 = k)
  | _, _ => false

/-- JSON whitespace accepted by `serde_json`. -/
def skipJsonWs (s : List Char) : List Char :=
  s.dropWhile (fun c => c = ' ' ∨ c = '\n' ∨ c = '\t' ∨ c = '\r')

/-- String-body parse (after the opening quote): content and remaining input
after the closing quote.  Models the external parser on the escape-free
strings appearing in the concrete instantiations (plus the common
single-character escapes). -/
def pString : List Char → Option (List Char × List Char)
  | [] => none
  | '"' :: rest => some ([], rest)
  | '\\' :: c :: rest =>
    (match c with
      | 'n' => some '\n'
      | 't' => some '\t'
      | 'r' => some '\r'
      | '"' => some '"'
      | '\\' => some '\\'
      | '/' => some '/'
      | _ => none).bind
      (fun ch => (pString rest).map
        (fun (p : List Char × List Char) => (ch :: p.1, p.2)))
  | c :: rest =>
    (pString rest).map (fun (p : List Char × List Char) => (c :: p.1, p.2))

/-- Digit-run parse. -/
def pNat (s : List Char) : Option (Nat × List Char) :=
  let digits := s.takeWhile (fun c => '0' ≤ c ∧ c ≤ '9')
  if digits.isEmpty then none
  else some (digits.foldl (fun a c => 10 * a + (c.toNat - '0'.toNat)) 0,
    s.drop digits.length)

mutual

/-- Fuel-bounded JSON value parse, modelling the external
`serde_json::from_str` on the fragment used in the concrete
instantiations. -/
def pVal : Nat → List Char → Option (MiniJson × List Char)
  | 0, _ => none
  | fuel + 1, s =>
    match skipJsonWs s with
    | [] => none
    | 'n' :: rest =>
      if ("ull".toList).isPrefixOf rest then some (.null, rest.drop 3) else none
    | 't' :: rest =>
      if ("rue".toList).isPrefixOf rest then some (.bool true, rest.drop 3) else none
    | 'f' :: rest =>
      if ("alse".toList).isPrefixOf rest then some (.bool false, rest.drop 4) else none
    | '"' :: rest => (pString rest).map (fun p => (.str p.1, p.2))
    | '[' :: rest =>
      (match skipJsonWs rest with
        | ']' :: r2 => some (.arr [], r2)
        | _ => pArrItems fuel rest [])
    | '{' :: rest =>
      (match skipJsonWs rest with
        | '}' :: r2 => some (.obj [], r2)
        | _ => pObjFields fuel rest [])
    | '-' :: rest => (pNat rest).map (fun p => (.num (-(p.1 : Int)), p.2))
    | c :: rest =>
      if '0' ≤ c ∧ c ≤ '9' then
        (pNat (c :: rest)).map (fun p => (.num (p.1 : Int), p.2))
      else none

/-- Array elements after `[`. -/
def pArrItems : Nat → List Char → List MiniJson → Option (MiniJson × List Char)
  | 0, _, _ => none
  | fuel + 1, s, acc =>
    match pVal fuel s with
    | none => none
    | some (v, r) =>
      match skipJsonWs r with
      | ',' :: r2 => pArrItems fuel r2 (acc ++ [v])
      | ']' :: r2 => some (.arr (acc ++ [v]), r2)
      | _ => none

/-- Object fields after `{`. -/
def pObjFields : Nat → List Char → List (List Char × MiniJson) →
    Option (MiniJson × List Char)
  | 0, _, _ => none
  | fuel + 1, s, acc =>
    match skipJsonWs s with
    | '"' :: rest =>
      match pString rest with
      | none => none
      | some (k, r) =>
        match skipJsonWs r with
        | ':' :: r2 =>
          match pVal fuel r2 with
          | none => none
          | some (v, r3) =>
            match skipJsonWs r3 with
            | ',' :: r4 => pObjFields fuel r4 (acc ++ [(k, v)])
            | '}' :: r4 => some (.obj (acc ++ [(k, v)]), r4)
            | _ => none
        | _ => none
    | _ => none

end

/-- Models `serde_json::from_str::<serde_json::Value>`: a complete value
followed only by whitespace. -/
def miniParseJson (s : List Char) : Option MiniJson :=
  match pVal (s.length + 1) s with
  | none => none
  | some (v, rest) => if (skipJsonWs rest).isEmpty then some v else none

end JsDecode

namespace JsDecode

/-- Concrete RSC script with two push payloads containing the key `k`: the
first (earlier) payload uses the literal quoting convention inside a
single-quoted JS string, the second uses the escaped convention inside a
double-quoted JS string. -/
def rscMixedScript : List Char := ['s', 'e', 'l', 'f', '.', '_', '_', 'n', 'e', 'x', 't', '_', 'f', '.', 'p', 'u', 's', 'h', '(', '[', '1', ',', '\'', '1', ':', '[', '{', '"', 'k', '"', ':', '{', '"', 'i', 'd', '"', ':', '"', '1', '"', '}', '}', ']', '\\', 'n', '\'', ']', ')', ';', 's', 'e', 'l', 'f', '.', '_', '_', 'n', 'e', 'x', 't', '_', 'f', '.', 'p', 'u', 's', 'h', '(', '[', '1', ',', '"', '2', ':', '[', '{', '\\', '"', 'k', '\\', '"', ':', '{', '\\', '"', 'i', 'd', '\\', '"', ':', '\\', '"', '2', '\\', '"', '}', '}', ']', '\\', 'n', '"', ']', ')', ';']

/-- Concrete RSC script with two push payloads containing the key `k`, both
using the literal quoting convention. -/
def rscLiteralScript : List Char := ['s', 'e', 'l', 'f', '.', '_', '_', 'n', 'e', 'x', 't', '_', 'f', '.', 'p', 'u', 's', 'h', '(', '[', '1', ',', '\'', '1', ':', '[', '{', '"', 'k', '"', ':', '{', '"', 'i', 'd', '"', ':', '"', '1', '"', '}', '}', ']', '\\', 'n', '\'', ']', ')', ';', 's', 'e', 'l', 'f', '.', '_', '_', 'n', 'e', 'x', 't', '_', 'f', '.', 'p', 'u', 's', 'h', '(', '[', '1', ',', '\'', '2', ':', '[', '{', '"', 'k', '"', ':', '{', '"', 'i', 'd', '"', ':', '"', '2', '"', '}', '}', ']', '\\', 'n', '\'', ']', ')', ';']

/-- The balanced escaped-convention region around the second payload's key. -/
def rscPayloadEsc : List Char := ['{', '\\', '"', 'k', '\\', '"', ':', '{', '\\', '"', 'i', 'd', '\\', '"', ':', '\\', '"', '2', '\\', '"', '}', '}']

/-- First payload's object text. -/
def rscU1 : List Char := ['{', '"', 'k', '"', ':', '{', '"', 'i', 'd', '"', ':', '"', '1', '"', '}', '}']

/-- Second payload's object text (after unescaping). -/
def rscU2 : List Char := ['{', '"', 'k', '"', ':', '{', '"', 'i', 'd', '"', ':', '"', '2', '"', '}', '}']

/-- Parsed value of the first payload. -/
def rscJson1 : MiniJson := .obj [(['k'], .obj [(['i', 'd'], .str ['1'])])]

/-- Parsed value of the second payload. -/
def rscJson2 : MiniJson := .obj [(['k'], .obj [(['i', 'd'], .str ['2'])])]

/-- Suffix of the mixed script from the second payload's opening brace. -/
def rscTailEsc : List Char := ['{', '\\', '"', 'k', '\\', '"', ':', '{', '\\', '"', 'i', 'd', '\\', '"', ':', '\\', '"', '2', '\\', '"', '}', '}', ']', '\\', 'n', '"', ']', ')', ';']

/-- Suffix of the mixed script from the first payload's opening brace. -/
def rscTailLit : List Char := ['{', '"', 'k', '"', ':', '{', '"', 'i', 'd', '"', ':', '"', '1', '"', '}', '}', ']', '\\', 'n', '\'', ']', ')', ';', 's', 'e', 'l', 'f', '.', '_', '_', 'n', 'e', 'x', 't', '_', 'f', '.', 'p', 'u', 's', 'h', '(', '[', '1', ',', '"', '2', ':', '[', '{', '\\', '"', 'k', '\\', '"', ':', '{', '\\', '"', 'i', 'd', '\\', '"', ':', '\\', '"', '2', '\\', '"', '}', '}', ']', '\\', 'n', '"', ']', ')', ';']

/-- Suffix of the literal script from the first payload's opening brace. -/
def litTail1 : List Char := ['{', '"', 'k', '"', ':', '{', '"', 'i', 'd', '"', ':', '"', '1', '"', '}', '}', ']', '\\', 'n', '\'', ']', ')', ';', 's', 'e', 'l', 'f', '.', '_', '_', 'n', 'e', 'x', 't', '_', 'f', '.', 'p', 'u', 's', 'h', '(', '[', '1', ',', '\'', '2', ':', '[', '{', '"', 'k', '"', ':', '{', '"', 'i', 'd', '"', ':', '"', '2', '"', '}', '}', ']', '\\', 'n', '\'', ']', ')', ';']

/-- Suffix of the literal script from the second payload's opening brace. -/
def litTail2 : List Char := ['{', '"', 'k', '"', ':', '{', '"', 'i', 'd', '"', ':', '"', '2', '"', '}', '}', ']', '\\', 'n', '\'', ']', ')', ';']

end JsDecode

namespace JsDecode

/-- The search loop only appends to its accumulator. -/
theorem rscLoop_append {J : Type} (parse : List Char → Option J)
    (getKey : J → List Char → Bool) (script key pattern : List Char) (esc : Bool) :
    ∀ (fuel ss : Nat) (results : List J),
      rscLoop parse getKey script key pattern esc fuel ss results =
        results ++ rscLoop parse getKey script key pattern esc fuel ss [] := by
  intro fuel
  induction fuel with
  | zero => intro ss results; simp [rscLoop]
  | succ fuel ih =>
    intro ss results
    simp only [rscLoop]
    cases hf : findSub (script.drop ss) pattern with
    | none => simp
    | some kp =>
      simp only []
      cases hc : rscCandidate parse getKey script key (ss + kp) esc with
      | none =>
        simp only []
        rw [ih]
      | some v =>
        simp only [List.nil_append]
        rw [ih _ (results ++ [v]), ih _ [v]]
        simp

/-- The escaped-convention pass over the mixed script finds the second
payload. -/
theorem rscMixed_escaped_pass :
    rscLoop miniParseJson MiniJson.hasKey rscMixedScript ['k'] (escapedKeyPattern ['k'])
      true 105 0 [] = [rscJson2] := by
  have hbal : extract_balanced_json_with_escaped_strings rscTailEsc true =
      some rscPayloadEsc := by
    rw [extract_balanced_eq_spec]
    simp [openerKindBalanced, specBalancedGen, genGo, rscTailEsc, rscPayloadEsc]
  have hrepl : replaceSub rscPayloadEsc ['\\', '"'] ['"'] = rscU2 := by
    simp [replaceSub, rscPayloadEsc, rscU2]
  have hdec : decode_js_string rscU2 = .ok rscU2 :=
    decode_id_of_no_backslash rscU2 (by decide)
  have hc1 : rscCandidate miniParseJson MiniJson.hasKey rscMixedScript ['k'] 76 true =
      some rscJson2 := by
    simp only [rscCandidate,
      show find_object_start_plain (rscMixedScript.take 76) = some 75 from rfl,
      show rscMixedScript.drop 75 = rscTailEsc from rfl,
      hbal, if_true, hrepl, hdec,
      show miniParseJson rscU2 = some rscJson2 from rfl,
      show MiniJson.hasKey rscJson2 ['k'] = true from rfl]
  simp only [rscLoop, List.drop_zero, Nat.zero_add, List.nil_append, Nat.reduceAdd,
    show findSub rscMixedScript (escapedKeyPattern ['k']) = some 76 from rfl,
    hc1,
    show (escapedKeyPattern ['k']).length = 6 from rfl,
    show findSub (rscMixedScript.drop 82) (escapedKeyPattern ['k']) = none from rfl]

/-- The literal-convention pass over the mixed script finds the first
payload. -/
theorem rscMixed_literal_pass :
    rscLoop miniParseJson MiniJson.hasKey rscMixedScript ['k'] (literalKeyPattern ['k'])
      false 105 0 [] = [rscJson1] := by
  have hbal : extract_balanced_json_with_escaped_strings rscTailLit false =
      some rscU1 := by
    rw [extract_balanced_eq_spec]
    simp [openerKindBalanced, specBalancedGen, genGo, rscTailLit, rscU1]
  have hdec : decode_js_string rscU1 = .ok rscU1 :=
    decode_id_of_no_backslash rscU1 (by decide)
  have hc1 : rscCandidate miniParseJson MiniJson.hasKey rscMixedScript ['k'] 27 false =
      some rscJson1 := by
    simp only [rscCandidate,
      show find_object_start_plain (rscMixedScript.take 27) = some 26 from rfl,
      show rscMixedScript.drop 26 = rscTailLit from rfl,
      hbal, if_false, if_true, Bool.false_eq_true, hdec,
      show miniParseJson rscU1 = some rscJson1 from rfl,
      show MiniJson.hasKey rscJson1 ['k'] = true from rfl]
  simp only [rscLoop, List.drop_zero, Nat.zero_add, List.nil_append, Nat.reduceAdd,
    show findSub rscMixedScript (literalKeyPattern ['k']) = some 27 from rfl,
    hc1,
    show (literalKeyPattern ['k']).length = 4 from rfl,
    show findSub (rscMixedScript.drop 31) (literalKeyPattern ['k']) = none from rfl]

/-- Claim C3 (corrected): on a script whose first payload uses the literal
convention and whose second payload uses the escaped convention, the
extractor returns the escaped-convention match first — not in order of
appearance — because the escaped pattern is processed before the literal
pattern. -/
theorem C3_counterexample_mixed_conventions :
    findSub rscMixedScript (literalKeyPattern ['k']) = some 27 ∧
    findSub rscMixedScript (escapedKeyPattern ['k']) = some 76 ∧
    rscJson1 ≠ rscJson2 ∧
    extract_nextjs_rsc miniParseJson MiniJson.hasKey rscMixedScript ['k'] =
      [rscJson2, rscJson1] := by
  refine ⟨rfl, rfl, by simp [rscJson1, rscJson2], ?_⟩
  simp only [extract_nextjs_rsc, List.foldl]
  rw [show rscMixedScript.length + 1 = 105 from rfl]
  rw [rscMixed_escaped_pass, rscLoop_append, rscMixed_literal_pass]
  rfl

end JsDecode

namespace JsDecode

/-- The literal-convention pass over the all-literal script finds both
payloads, in order of appearance. -/
theorem rscLiteral_literal_pass :
    rscLoop miniParseJson MiniJson.hasKey rscLiteralScript ['k'] (literalKeyPattern ['k'])
      false 99 0 [] = [rscJson1, rscJson2] := by
  have hbal1 : extract_balanced_json_with_escaped_strings litTail1 false = some rscU1 := by
    rw [extract_balanced_eq_spec]
    simp [openerKindBalanced, specBalancedGen, genGo, litTail1, rscU1]
  have hbal2 : extract_balanced_json_with_escaped_strings litTail2 false = some rscU2 := by
    rw [extract_balanced_eq_spec]
    simp [openerKindBalanced, specBalancedGen, genGo, litTail2, rscU2]
  have hdec1 : decode_js_string rscU1 = .ok rscU1 :=
    decode_id_of_no_backslash rscU1 (by decide)
  have hdec2 : decode_js_string rscU2 = .ok rscU2 :=
    decode_id_of_no_backslash rscU2 (by decide)
  have hc1 : rscCandidate miniParseJson MiniJson.hasKey rscLiteralScript ['k'] 27 false =
      some rscJson1 := by
    simp only [rscCandidate,
      show find_object_start_plain (rscLiteralScript.take 27) = some 26 from rfl,
      show rscLiteralScript.drop 26 = litTail1 from rfl,
      hbal1, if_false, if_true, Bool.false_eq_true, hdec1,
      show miniParseJson rscU1 = some rscJson1 from rfl,
      show MiniJson.hasKey rscJson1 ['k'] = true from rfl]
  have hc2 : rscCandidate miniParseJson MiniJson.hasKey rscLiteralScript ['k'] 76 false =
      some rscJson2 := by
    simp only [rscCandidate,
      show find_object_start_plain (rscLiteralScript.take 76) = some 75 from rfl,
      show rscLiteralScript.drop 75 = litTail2 from rfl,
      hbal2, if_false, if_true, Bool.false_eq_true, hdec2,
      show miniParseJson rscU2 = some rscJson2 from rfl,
      show MiniJson.hasKey rscJson2 ['k'] = true from rfl]
  simp only [rscLoop, List.drop_zero, Nat.zero_add, List.nil_append, Nat.reduceAdd,
    show findSub rscLiteralScript (literalKeyPattern ['k']) = some 27 from rfl,
    show findSub (rscLiteralScript.drop 31) (literalKeyPattern ['k']) = some 45 from rfl,
    show findSub (rscLiteralScript.drop 80) (literalKeyPattern ['k']) = none from rfl,
    hc1, hc2,
    show (literalKeyPattern ['k']).length = 4 from rfl]
  rfl

set_option maxRecDepth 4000 in
/-- The escaped-convention pass over the all-literal script finds nothing. -/
theorem rscLiteral_escaped_pass :
    rscLoop miniParseJson MiniJson.hasKey rscLiteralScript ['k'] (escapedKeyPattern ['k'])
      true 99 0 [] = [] := by
  simp only [rscLoop, List.drop_zero,
    show findSub rscLiteralScript (escapedKeyPattern ['k']) = none from rfl]

/-- Claim C3 (amended): matches are grouped by quoting convention — all
escaped-pattern matches (in order of appearance) precede all literal-pattern
matches (in order of appearance); when both payloads use the same (literal)
convention the extractor returns exactly two matches in order of
appearance. -/
theorem C3_rsc_grouped_by_convention :
    (∀ (J : Type) (parse : List Char → Option J) (getKey : J → List Char → Bool)
        (script key : List Char),
      extract_nextjs_rsc parse getKey script key =
        rscLoop parse getKey script key (escapedKeyPattern key) true
          (script.length + 1) 0 [] ++
        rscLoop parse getKey script key (literalKeyPattern key) false
          (script.length + 1) 0 []) ∧
    extract_nextjs_rsc miniParseJson MiniJson.hasKey rscLiteralScript ['k'] =
      [rscJson1, rscJson2] := by
  constructor
  · intro J parse getKey script key
    simp only [extract_nextjs_rsc, List.foldl_cons, List.foldl_nil]
    rw [rscLoop_append]
  · simp only [extract_nextjs_rsc, List.foldl_cons, List.foldl_nil]
    rw [show rscLiteralScript.length + 1 = 99 from rfl]
    rw [rscLiteral_escaped_pass]
    exact rscLiteral_literal_pass

end JsDecode
